import Mathlib

set_option autoImplicit false
set_option maxHeartbeats 1000000

/-! Formal model of a lazy, memoizing dependency-injection container
(the `Store` and `StoreDefinition` classes of `mod.ts`).

JavaScript objects keyed by strings are modelled as association lists
(JS object keys are unique, insertion replaces in place or appends, and
`delete` removes the key).  Promises are modelled as entries of a global
promise table: a promise's identity is its index, its record carries its
settlement state and the memoization reaction that `Store.get` attaches
via `.then`/`.catch`.  A factory function is modelled as an entry of a
global factory table: a record holding the `transient` flag (in the
source a mutable property set on the function object by `addTransient`),
a pure behaviour mapping the invocation number to a result, and the
number of invocations so far.  Stores live in a global store table so
that a parent store's mutable cache is shared by every child that
delegates to it.  `Store.get` takes a fuel argument bounding the depth
of parent-chain recursion; every run of the source terminates because
parent chains are finite, and theorems supply enough fuel. -/

/-- Service values. `plain` carries an identity tag plus the two duck-typed
disposal capabilities probed by the source (`Symbol.dispose`,
`Symbol.asyncDispose`); `promiseObj` is a reference into the promise table. -/
inductive Obj where
  | plain (id : Nat) (hasDispose : Bool) (hasAsyncDispose : Bool)
  | promiseObj (pid : Nat)
deriving DecidableEq

/-- Settlement outcome delivered to a pending promise. -/
inductive Outcome where
  | ok (v : Obj)
  | err (e : Nat)
deriving DecidableEq

/-- Settlement state of a promise. -/
inductive PromSt where
  | pending
  | fulfilled (v : Obj)
  | rejected (e : Nat)
deriving DecidableEq

/-- A promise-table record: its state plus the memoization reaction
(store id and key) attached by `Store.get` via `.then`/`.catch`. -/
structure Prom where
  state : PromSt
  handler : Option (Nat × String)
deriving DecidableEq

/-- A memoization-cache record, `{ promisify?: true; value }` in the source. -/
structure Entry where
  promisify : Bool
  value : Obj
deriving DecidableEq

/-- Result of one factory invocation: return a value (possibly an existing
promise object), create and return a fresh pending promise, or throw. -/
inductive FRes where
  | val (v : Obj)
  | newProm
  | fail (e : Nat)
deriving DecidableEq

/-- A factory-table record: the `transient` property of the function object,
the behaviour (result of the n-th invocation), and the invocation count. -/
structure Factory where
  transient : Bool
  beh : Nat → FRes
  count : Nat

/-- A store (the `Store` class): factory map, optional parent store id,
and the mutable memoization cache `#memoizedValues`. -/
structure Store where
  factories : List (String × Nat)
  parent : Option Nat
  cache : List (String × Entry)
deriving DecidableEq

/-- A store definition (the `StoreDefinition` class): factory map plus an
optional parent store id. -/
structure StoreDefinition where
  factories : List (String × Nat)
  parentStore : Option Nat
deriving DecidableEq

/-- The global mutable state: store table, factory table, promise table. -/
structure Sys where
  stores : List Store
  facts : List Factory
  promises : List Prom

/-- Errors thrown by the source (plus `internal` for out-of-model states
such as fuel exhaustion, which no actual run of the source reaches). -/
inductive Err where
  | keyNotFound (k : String)
  | duplicateKey (k : String)
  | thrown (e : Nat)
  | internal
deriving DecidableEq

/-- Result of a `Store.get` call: the returned value or the thrown error. -/
inductive GetRes where
  | ok (v : Obj)
  | err (e : Err)
deriving DecidableEq

/-- Lookup in a string-keyed association list (JS property read). -/
def alookup {α : Type} : List (String × α) → String → Option α
  | [], _ => none
  | (k, v) :: rest, key => if k = key then some v else alookup rest key

/-- Key-presence test (the JS `in` operator on own keys). -/
def acontains {α : Type} (m : List (String × α)) (key : String) : Bool :=
  (alookup m key).isSome

/-- JS property write: replace in place when present, append when absent. -/
def ainsert {α : Type} : List (String × α) → String → α → List (String × α)
  | [], key, v => [(key, v)]
  | (k, w) :: rest, key, v =>
    if k = key then (key, v) :: rest else (k, w) :: ainsert rest key v

/-- JS `delete` of a property. -/
def aremove {α : Type} : List (String × α) → String → List (String × α)
  | [], _ => []
  | (k, w) :: rest, key =>
    if k = key then aremove rest key else (k, w) :: aremove rest key

/-- Apply a function to the cache of the store at index `sid`. -/
def updCache (sys : Sys) (sid : Nat)
    (f : List (String × Entry) → List (String × Entry)) : Sys :=
  match sys.stores.get? sid with
  | none => sys
  | some st =>
    { sys with stores := sys.stores.set sid { st with cache := f st.cache } }

/-- Attach the memoization reaction of store `sid` / key `k` to promise
`pid` (the `.then(...).catch(...)` registration in `Store.get`). -/
def setHandler (sys : Sys) (pid : Nat) (sid : Nat) (k : String) : Sys :=
  match sys.promises.get? pid with
  | none => sys
  | some pr =>
    { sys with promises := sys.promises.set pid { pr with handler := some (sid, k) } }

/-- Attach the reaction when the produced value is a promise object
(the `value instanceof Promise` test in `Store.get`). -/
def attachIfPromise (sys : Sys) (v : Obj) (sid : Nat) (k : String) : Sys :=
  match v with
  | Obj.promiseObj pid => setHandler sys pid sid k
  | _ => sys

/-- Invocation count of factory `fid` (0 when the id is unused). -/
def countOf (sys : Sys) (fid : Nat) : Nat :=
  match sys.facts.get? fid with
  | some f => f.count
  | none => 0

/-- Transient flag of factory `fid`, when the id is in use. -/
def factTransient (sys : Sys) (fid : Nat) : Option Bool :=
  (sys.facts.get? fid).map (fun f => f.transient)

/-- Behaviour of factory `fid`, when the id is in use. -/
def factBeh (sys : Sys) (fid : Nat) : Option (Nat → FRes) :=
  (sys.facts.get? fid).map (fun f => f.beh)

/-- Own-factory-map lookup of key `k` in the store at `sid`. -/
def storeFactLookup (sys : Sys) (sid : Nat) (k : String) : Option Nat :=
  match sys.stores.get? sid with
  | some st => alookup st.factories k
  | none => none

/-- Parent pointer of the store at `sid`, when the id is in use. -/
def storeParent (sys : Sys) (sid : Nat) : Option (Option Nat) :=
  (sys.stores.get? sid).map (fun st => st.parent)

/-- Cache of the store at `sid`, when the id is in use. -/
def storeCache (sys : Sys) (sid : Nat) : Option (List (String × Entry)) :=
  (sys.stores.get? sid).map (fun st => st.cache)

/-- Whether key `k` is currently cached in the store at `sid`. -/
def cacheHasKeyB (sys : Sys) (sid : Nat) (k : String) : Bool :=
  match sys.stores.get? sid with
  | some st => acontains st.cache k
  | none => false

/-- Whether some promise carries the memoization reaction of `(sid, k)`. -/
def hasHandlerFor (sys : Sys) (sid : Nat) (k : String) : Bool :=
  sys.promises.any (fun pr => pr.handler = some (sid, k))

/-- `Store.has`: key in the own factory map, or resolvable through the
parent chain.  Fuel bounds the parent-chain recursion. -/
def Store.has : Nat → Sys → Nat → String → Bool
  | 0, _, _, _ => false
  | fuel + 1, sys, sid, k =>
    match sys.stores.get? sid with
    | none => false
    | some st =>
      acontains st.factories k ||
        (match st.parent with
         | some p => Store.has fuel sys p k
         | none => false)

/-- `Store.get`: cached entries are returned directly (a settled-async
entry is re-wrapped by `Promise.resolve`, which returns a promise argument
unchanged and otherwise makes a fresh already-fulfilled promise); a missing
key is resolved by the own factory when present (transient results are
returned uncached; a produced promise gets the memoization reaction
attached; the result is written to the cache before returning, i.e. before
any suspension point), else delegated to the parent when `parent.has(key)`,
else `keyNotFound` is thrown. -/
def Store.get : Nat → Sys → Nat → String → GetRes × Sys
  | 0, sys, _, _ => (GetRes.err Err.internal, sys)
  | fuel + 1, sys, sid, k =>
    match sys.stores.get? sid with
    | none => (GetRes.err Err.internal, sys)
    | some st =>
      match alookup st.cache k with
      | some entry =>
        if entry.promisify then
          match entry.value with
          | Obj.promiseObj p => (GetRes.ok (Obj.promiseObj p), sys)
          | v =>
            (GetRes.ok (Obj.promiseObj sys.promises.length),
             { sys with promises := sys.promises ++ [⟨PromSt.fulfilled v, none⟩] })
        else
          (GetRes.ok entry.value, sys)
      | none =>
        match alookup st.factories k with
        | none =>
          match st.parent with
          | some p =>
            if Store.has fuel sys p k then
              Store.get fuel sys p k
            else
              (GetRes.err (Err.keyNotFound k), sys)
          | none => (GetRes.err (Err.keyNotFound k), sys)
        | some fid =>
          match sys.facts.get? fid with
          | none => (GetRes.err Err.internal, sys)
          | some f =>
            let res := f.beh f.count
            let sys1 := { sys with facts := sys.facts.set fid { f with count := f.count + 1 } }
            match res with
            | FRes.fail e => (GetRes.err (Err.thrown e), sys1)
            | FRes.newProm =>
              let pid := sys1.promises.length
              if f.transient then
                (GetRes.ok (Obj.promiseObj pid),
                 { sys1 with promises := sys1.promises ++ [⟨PromSt.pending, none⟩] })
              else
                let sys2 :=
                  { sys1 with promises := sys1.promises ++ [⟨PromSt.pending, some (sid, k)⟩] }
                (GetRes.ok (Obj.promiseObj pid),
                 updCache sys2 sid (fun c => ainsert c k ⟨false, Obj.promiseObj pid⟩))
            | FRes.val v =>
              if f.transient then
                (GetRes.ok v, sys1)
              else
                (GetRes.ok v,
                 updCache (attachIfPromise sys1 v sid k) sid (fun c => ainsert c k ⟨false, v⟩))

/-- Settle a pending promise: record the outcome and run the attached
memoization reaction, which on success replaces the cache entry by a
`promisify` entry holding the resolved value and on failure deletes the
cache entry. Settling a missing or already-settled promise does nothing. -/
def settle (sys : Sys) (pid : Nat) (oc : Outcome) : Sys :=
  match sys.promises.get? pid with
  | none => sys
  | some pr =>
    match pr.state with
    | PromSt.pending =>
      let st' := match oc with
        | Outcome.ok v => PromSt.fulfilled v
        | Outcome.err e => PromSt.rejected e
      let sys1 := { sys with promises := sys.promises.set pid { pr with state := st' } }
      match pr.handler with
      | none => sys1
      | some (sid, key) =>
        match oc with
        | Outcome.ok v => updCache sys1 sid (fun c => ainsert c key ⟨true, v⟩)
        | Outcome.err _ => updCache sys1 sid (fun c => aremove c key)
    | _ => sys

/-- `StoreDefinition.add`: duplicate keys (own map or parent chain) are
rejected; otherwise a new definition extending the old map is returned,
the receiver untouched. -/
def StoreDefinition.add (fuel : Nat) (sys : Sys) (d : StoreDefinition)
    (k : String) (fid : Nat) : Except Err StoreDefinition :=
  if acontains d.factories k ||
      (match d.parentStore with
       | some p => Store.has fuel sys p k
       | none => false) then
    Except.error (Err.duplicateKey k)
  else
    Except.ok ⟨ainsert d.factories k fid, d.parentStore⟩

/-- Set the `transient` property of factory `fid` (the
`(value as any).transient = true` mutation of the function object). -/
def setTransient (sys : Sys) (fid : Nat) : Sys :=
  match sys.facts.get? fid with
  | none => sys
  | some f => { sys with facts := sys.facts.set fid { f with transient := true } }

/-- `StoreDefinition.addTransient`: mutate the factory's `transient`
property, then `add`.  The mutation happens first, so it persists in the
global state whatever becomes of the returned definition. -/
def StoreDefinition.addTransient (fuel : Nat) (sys : Sys) (d : StoreDefinition)
    (k : String) (fid : Nat) : Except Err StoreDefinition × Sys :=
  let sys' := setTransient sys fid
  (StoreDefinition.add fuel sys' d k fid, sys')

/-- `StoreDefinition.override`: unconditional write into a copy of the
own factory map; no duplicate check, the receiver untouched. -/
def StoreDefinition.override (d : StoreDefinition) (k : String) (fid : Nat) :
    StoreDefinition :=
  ⟨ainsert d.factories k fid, d.parentStore⟩

/-- `StoreDefinition.finalize`: allocate a fresh store with the captured
factory map, the captured parent pointer, and an empty cache. -/
def StoreDefinition.finalize (sys : Sys) (d : StoreDefinition) : Nat × Sys :=
  (sys.stores.length,
   { sys with stores := sys.stores ++ [⟨d.factories, d.parentStore, []⟩] })

/-- The `defineStore` entry point: an empty, parentless definition. -/
def defineStore : StoreDefinition := ⟨[], none⟩

/-- `Store.createChild`: an empty definition whose parent is this store. -/
def Store.createChild (sid : Nat) : StoreDefinition := ⟨[], some sid⟩

/-- Allocate a fresh (non-transient) factory with the given behaviour. -/
def mkFact (sys : Sys) (beh : Nat → FRes) : Nat × Sys :=
  (sys.facts.length, { sys with facts := sys.facts ++ [⟨false, beh, 0⟩] })

/-- Does the value expose a synchronous disposal capability
(`value[Symbol.dispose] instanceof Function`)? -/
def objHasDispose : Obj → Bool
  | Obj.plain _ d _ => d
  | Obj.promiseObj _ => false

/-- Does the value expose an asynchronous disposal capability
(`value[Symbol.asyncDispose] instanceof Function`)? -/
def objHasAsyncDispose : Obj → Bool
  | Obj.plain _ _ a => a
  | Obj.promiseObj _ => false

/-- A disposal-capability invocation performed during teardown. -/
inductive DispCall where
  | syncCall (v : Obj)
  | asyncCall (v : Obj)
deriving DecidableEq

/-- Body of `[Symbol.dispose]`: walk the cached values in order, invoke the
sync capability where present, and stop with an error (`true` flag) at the
first value exposing only an async capability. Returns the calls performed
and whether the `AsyncDisposalRequired` error was thrown. -/
def disposeSyncGo : List (String × Entry) → List DispCall × Bool
  | [] => ([], false)
  | (_, e) :: rest =>
    if objHasDispose e.value then
      let r := disposeSyncGo rest
      (DispCall.syncCall e.value :: r.1, r.2)
    else if objHasAsyncDispose e.value then
      ([], true)
    else
      disposeSyncGo rest

/-- `Store[Symbol.dispose]` on the store at `sid`. -/
def Store.dispose (sys : Sys) (sid : Nat) : List DispCall × Bool :=
  match sys.stores.get? sid with
  | none => ([], false)
  | some st => disposeSyncGo st.cache

/-- Body of `[Symbol.asyncDispose]`: walk the cached values in order,
preferring the async capability (whose invocation yields a fresh pending
completion promise, collected for the final `Promise.all`) and falling
back to the sync capability. Returns the calls, the collected completion
promise ids, and the state extended with those promises. -/
def disposeAsyncGo : Sys → List (String × Entry) → List DispCall × List Nat × Sys
  | sys, [] => ([], [], sys)
  | sys, (_, e) :: rest =>
    if objHasAsyncDispose e.value then
      let pid := sys.promises.length
      let sys1 := { sys with promises := sys.promises ++ [⟨PromSt.pending, none⟩] }
      let r := disposeAsyncGo sys1 rest
      (DispCall.asyncCall e.value :: r.1, pid :: r.2.1, r.2.2)
    else if objHasDispose e.value then
      let r := disposeAsyncGo sys rest
      (DispCall.syncCall e.value :: r.1, r.2.1, r.2.2)
    else
      disposeAsyncGo sys rest

/-- `Store[Symbol.asyncDispose]` on the store at `sid`. -/
def Store.asyncDispose (sys : Sys) (sid : Nat) : List DispCall × List Nat × Sys :=
  match sys.stores.get? sid with
  | none => ([], [], sys)
  | some st => disposeAsyncGo sys st.cache

/-- Whether promise `pid` is currently fulfilled. -/
def promFulfilledB (sys : Sys) (pid : Nat) : Bool :=
  match sys.promises.get? pid with
  | some pr =>
    match pr.state with
    | PromSt.fulfilled _ => true
    | _ => false
  | none => false

/-- Whether promise `pid` is currently rejected. -/
def promRejectedB (sys : Sys) (pid : Nat) : Bool :=
  match sys.promises.get? pid with
  | some pr =>
    match pr.state with
    | PromSt.rejected _ => true
    | _ => false
  | none => false

/-- Whether promise `pid` is currently pending. -/
def promPendingB (sys : Sys) (pid : Nat) : Bool :=
  match sys.promises.get? pid with
  | some pr =>
    match pr.state with
    | PromSt.pending => true
    | _ => false
  | none => false

/-- Completion of the `await Promise.all(pendingPromises)` of
`[Symbol.asyncDispose]`: `Promise.all` fulfills once every collected
promise has fulfilled, and rejects as soon as any collected promise
rejects — in the latter case the await completes even while other
collected promises are still pending (the rejection short-circuit). -/
def promiseAllDone (sys : Sys) (pids : List Nat) : Bool :=
  pids.all (fun pid => promFulfilledB sys pid) ||
    pids.any (fun pid => promRejectedB sys pid)

/-- Interleaved events: a `get` call on the store under study, or the
settlement of a promise by its producer. -/
inductive Ev where
  | get (k : String)
  | settleEv (pid : Nat) (oc : Outcome)
deriving DecidableEq

/-- One event step (the state effect of the event). -/
def stepEv (fuel : Nat) (sid : Nat) (sys : Sys) : Ev → Sys
  | Ev.get k => (Store.get fuel sys sid k).2
  | Ev.settleEv pid oc => settle sys pid oc

/-- Run a list of events. -/
def runEvs (fuel : Nat) (sid : Nat) : Sys → List Ev → Sys
  | sys, [] => sys
  | sys, ev :: rest => runEvs fuel sid (stepEv fuel sid sys ev) rest

/-- Results of `n` consecutive `get` calls for key `k` on store `sid`. -/
def getResults (fuel : Nat) (sid : Nat) (k : String) : Nat → Sys → List GetRes
  | 0, _ => []
  | n + 1, sys =>
    let r := Store.get fuel sys sid k
    r.1 :: getResults fuel sid k n r.2

/-- Events allowed by the no-failure memoization claim: `get` calls at the
key under study, and successful settlements. -/
def okEv (k : String) : Ev → Bool
  | Ev.get k' => k' = k
  | Ev.settleEv _ (Outcome.ok _) => true
  | Ev.settleEv _ (Outcome.err _) => false

/-! Association-list lemmas. -/

theorem alookup_ainsert_self {α : Type} (m : List (String × α)) (k : String) (v : α) :
    alookup (ainsert m k v) k = some v := by
  induction m with
  | nil => simp [ainsert, alookup]
  | cons hd tl ih =>
    by_cases h : hd.1 = k
    · simp [ainsert, alookup, h]
    · simpa [ainsert, alookup, h] using ih

theorem alookup_ainsert_ne {α : Type} (m : List (String × α)) {k k' : String} (v : α)
    (h : k' ≠ k) : alookup (ainsert m k v) k' = alookup m k' := by
  have hkk : ¬(k = k') := fun hh => h hh.symm
  induction m with
  | nil => simp [ainsert, alookup, hkk]
  | cons hd tl ih =>
    obtain ⟨k0, w⟩ := hd
    by_cases hk : k0 = k
    · have h2 : ¬(k0 = k') := by rw [hk]; exact hkk
      simp [ainsert, hk, alookup, h2, hkk]
    · by_cases h3 : k0 = k'
      · simp [ainsert, hk, alookup, h3, h]
      · simp [ainsert, hk, alookup, h3, ih]

theorem alookup_aremove_self {α : Type} (m : List (String × α)) (k : String) :
    alookup (aremove m k) k = none := by
  induction m with
  | nil => simp [aremove, alookup]
  | cons hd tl ih =>
    obtain ⟨k0, w⟩ := hd
    by_cases hk : k0 = k <;> simp [aremove, hk, alookup, ih]

theorem alookup_aremove_ne {α : Type} (m : List (String × α)) {k k' : String}
    (h : k' ≠ k) : alookup (aremove m k) k' = alookup m k' := by
  have hkk : ¬(k = k') := fun hh => h hh.symm
  induction m with
  | nil => simp [aremove]
  | cons hd tl ih =>
    obtain ⟨k0, w⟩ := hd
    by_cases hk : k0 = k
    · have h2 : ¬(k0 = k') := by rw [hk]; exact hkk
      simp [aremove, hk, alookup, h2, hkk, ih]
    · by_cases h3 : k0 = k'
      · simp [aremove, hk, alookup, h3, h, ih]
      · simp [aremove, hk, alookup, h3, ih]

theorem acontains_eq_false_iff {α : Type} (m : List (String × α)) (k : String) :
    acontains m k = false ↔ alookup m k = none := by
  unfold acontains
  cases alookup m k <;> simp

theorem acontains_ainsert_self {α : Type} (m : List (String × α)) (k : String) (v : α) :
    acontains (ainsert m k v) k = true := by
  simp [acontains, alookup_ainsert_self]

theorem acontains_ainsert_of {α : Type} (m : List (String × α)) (k k' : String) (v : α)
    (h : acontains m k' = true) : acontains (ainsert m k v) k' = true := by
  by_cases hk : k' = k
  · subst hk; exact acontains_ainsert_self m k' v
  · simpa [acontains, alookup_ainsert_ne m v hk] using h

theorem acontains_ainsert_ne {α : Type} (m : List (String × α)) {k k' : String} (v : α)
    (h : k' ≠ k) : acontains (ainsert m k v) k' = acontains m k' := by
  simp [acontains, alookup_ainsert_ne m v h]

theorem ainsert_eq_append {α : Type} (m : List (String × α)) (k : String) (v : α) :
    acontains m k = false → ainsert m k v = m ++ [(k, v)] := by
  induction m with
  | nil => intro _; simp [ainsert]
  | cons hd tl ih =>
    obtain ⟨k0, w⟩ := hd
    intro h
    rw [acontains_eq_false_iff] at h
    simp only [alookup] at h
    by_cases hk : k0 = k
    · simp [hk] at h
    · rw [if_neg hk] at h
      simp [ainsert, hk, ih ((acontains_eq_false_iff tl k).mpr h)]

/-! Branch equations for `Store.get` and `settle`. -/

theorem get_nostore (fuel : Nat) (sys : Sys) (sid : Nat) (k : String)
    (hst : sys.stores.get? sid = none) :
    Store.get (fuel + 1) sys sid k = (GetRes.err Err.internal, sys) := by
  simp only [Store.get, hst]

theorem get_hit (fuel : Nat) (sys : Sys) (sid : Nat) (k : String)
    (st : Store) (entry : Entry)
    (hst : sys.stores.get? sid = some st)
    (hc : alookup st.cache k = some entry)
    (hp : entry.promisify = false) :
    Store.get (fuel + 1) sys sid k = (GetRes.ok entry.value, sys) := by
  simp only [Store.get, hst, hc, hp]
  simp

theorem get_hit_promisify_plain (fuel : Nat) (sys : Sys) (sid : Nat) (k : String)
    (st : Store) (entry : Entry) (i : Nat) (d a : Bool)
    (hst : sys.stores.get? sid = some st)
    (hc : alookup st.cache k = some entry)
    (hp : entry.promisify = true)
    (hv : entry.value = Obj.plain i d a) :
    Store.get (fuel + 1) sys sid k =
      (GetRes.ok (Obj.promiseObj sys.promises.length),
       { sys with promises := sys.promises ++ [⟨PromSt.fulfilled (Obj.plain i d a), none⟩] }) := by
  simp only [Store.get, hst, hc, hp, hv]
  simp

theorem get_hit_promisify_prom (fuel : Nat) (sys : Sys) (sid : Nat) (k : String)
    (st : Store) (entry : Entry) (p : Nat)
    (hst : sys.stores.get? sid = some st)
    (hc : alookup st.cache k = some entry)
    (hp : entry.promisify = true)
    (hv : entry.value = Obj.promiseObj p) :
    Store.get (fuel + 1) sys sid k = (GetRes.ok (Obj.promiseObj p), sys) := by
  simp only [Store.get, hst, hc, hp, hv]
  simp

theorem get_miss_fail (fuel : Nat) (sys : Sys) (sid : Nat) (k : String)
    (st : Store) (fid : Nat) (f : Factory) (e : Nat)
    (hst : sys.stores.get? sid = some st)
    (hc : alookup st.cache k = none)
    (hf : alookup st.factories k = some fid)
    (hfa : sys.facts.get? fid = some f)
    (hr : f.beh f.count = FRes.fail e) :
    Store.get (fuel + 1) sys sid k =
      (GetRes.err (Err.thrown e),
       { sys with facts := sys.facts.set fid { f with count := f.count + 1 } }) := by
  simp only [Store.get, hst, hc, hf, hfa, hr]

theorem get_miss_val (fuel : Nat) (sys : Sys) (sid : Nat) (k : String)
    (st : Store) (fid : Nat) (f : Factory) (v : Obj)
    (hst : sys.stores.get? sid = some st)
    (hc : alookup st.cache k = none)
    (hf : alookup st.factories k = some fid)
    (hfa : sys.facts.get? fid = some f)
    (hr : f.beh f.count = FRes.val v)
    (ht : f.transient = false) :
    Store.get (fuel + 1) sys sid k =
      (GetRes.ok v,
       updCache
         (attachIfPromise { sys with facts := sys.facts.set fid { f with count := f.count + 1 } }
           v sid k)
         sid (fun c => ainsert c k ⟨false, v⟩)) := by
  simp only [Store.get, hst, hc, hf, hfa, hr, ht]
  simp

theorem get_miss_val_transient (fuel : Nat) (sys : Sys) (sid : Nat) (k : String)
    (st : Store) (fid : Nat) (f : Factory) (v : Obj)
    (hst : sys.stores.get? sid = some st)
    (hc : alookup st.cache k = none)
    (hf : alookup st.factories k = some fid)
    (hfa : sys.facts.get? fid = some f)
    (hr : f.beh f.count = FRes.val v)
    (ht : f.transient = true) :
    Store.get (fuel + 1) sys sid k =
      (GetRes.ok v,
       { sys with facts := sys.facts.set fid { f with count := f.count + 1 } }) := by
  simp only [Store.get, hst, hc, hf, hfa, hr, ht]
  simp

theorem get_miss_newProm (fuel : Nat) (sys : Sys) (sid : Nat) (k : String)
    (st : Store) (fid : Nat) (f : Factory)
    (hst : sys.stores.get? sid = some st)
    (hc : alookup st.cache k = none)
    (hf : alookup st.factories k = some fid)
    (hfa : sys.facts.get? fid = some f)
    (hr : f.beh f.count = FRes.newProm)
    (ht : f.transient = false) :
    Store.get (fuel + 1) sys sid k =
      (GetRes.ok (Obj.promiseObj sys.promises.length),
       updCache
         { sys with
           facts := sys.facts.set fid { f with count := f.count + 1 },
           promises := sys.promises ++ [⟨PromSt.pending, some (sid, k)⟩] }
         sid (fun c => ainsert c k ⟨false, Obj.promiseObj sys.promises.length⟩)) := by
  simp only [Store.get, hst, hc, hf, hfa, hr, ht]
  simp

theorem get_miss_newProm_transient (fuel : Nat) (sys : Sys) (sid : Nat) (k : String)
    (st : Store) (fid : Nat) (f : Factory)
    (hst : sys.stores.get? sid = some st)
    (hc : alookup st.cache k = none)
    (hf : alookup st.factories k = some fid)
    (hfa : sys.facts.get? fid = some f)
    (hr : f.beh f.count = FRes.newProm)
    (ht : f.transient = true) :
    Store.get (fuel + 1) sys sid k =
      (GetRes.ok (Obj.promiseObj sys.promises.length),
       { sys with
         facts := sys.facts.set fid { f with count := f.count + 1 },
         promises := sys.promises ++ [⟨PromSt.pending, none⟩] }) := by
  simp only [Store.get, hst, hc, hf, hfa, hr, ht]
  simp

theorem get_delegate (fuel : Nat) (sys : Sys) (sid : Nat) (k : String)
    (st : Store) (p : Nat)
    (hst : sys.stores.get? sid = some st)
    (hc : alookup st.cache k = none)
    (hf : alookup st.factories k = none)
    (hpar : st.parent = some p)
    (hh : Store.has fuel sys p k = true) :
    Store.get (fuel + 1) sys sid k = Store.get fuel sys p k := by
  simp only [Store.get, hst, hc, hf, hpar, hh]
  simp

theorem get_nokey_noparent (fuel : Nat) (sys : Sys) (sid : Nat) (k : String)
    (st : Store)
    (hst : sys.stores.get? sid = some st)
    (hc : alookup st.cache k = none)
    (hf : alookup st.factories k = none)
    (hpar : st.parent = none) :
    Store.get (fuel + 1) sys sid k = (GetRes.err (Err.keyNotFound k), sys) := by
  simp only [Store.get, hst, hc, hf, hpar]

theorem get_nokey_nothas (fuel : Nat) (sys : Sys) (sid : Nat) (k : String)
    (st : Store) (p : Nat)
    (hst : sys.stores.get? sid = some st)
    (hc : alookup st.cache k = none)
    (hf : alookup st.factories k = none)
    (hpar : st.parent = some p)
    (hh : Store.has fuel sys p k = false) :
    Store.get (fuel + 1) sys sid k = (GetRes.err (Err.keyNotFound k), sys) := by
  simp only [Store.get, hst, hc, hf, hpar, hh]
  simp

theorem settle_noprom (sys : Sys) (pid : Nat) (oc : Outcome)
    (h : sys.promises.get? pid = none) : settle sys pid oc = sys := by
  simp only [settle, h]

theorem settle_settled (sys : Sys) (pid : Nat) (oc : Outcome) (pr : Prom)
    (h : sys.promises.get? pid = some pr) (hs : pr.state ≠ PromSt.pending) :
    settle sys pid oc = sys := by
  cases hst : pr.state with
  | pending => exact absurd hst hs
  | fulfilled v => simp only [settle, h, hst]
  | rejected e => simp only [settle, h, hst]

theorem settle_ok_nohandler (sys : Sys) (pid : Nat) (v : Obj) (pr : Prom)
    (h : sys.promises.get? pid = some pr) (hs : pr.state = PromSt.pending)
    (hh : pr.handler = none) :
    settle sys pid (Outcome.ok v) =
      { sys with promises := sys.promises.set pid { pr with state := PromSt.fulfilled v } } := by
  simp only [settle, h, hs, hh]

theorem settle_ok_handler (sys : Sys) (pid : Nat) (v : Obj) (pr : Prom)
    (sid : Nat) (key : String)
    (h : sys.promises.get? pid = some pr) (hs : pr.state = PromSt.pending)
    (hh : pr.handler = some (sid, key)) :
    settle sys pid (Outcome.ok v) =
      updCache
        { sys with promises := sys.promises.set pid { pr with state := PromSt.fulfilled v } }
        sid (fun c => ainsert c key ⟨true, v⟩) := by
  simp only [settle, h, hs, hh]

theorem settle_err_handler (sys : Sys) (pid : Nat) (e : Nat) (pr : Prom)
    (sid : Nat) (key : String)
    (h : sys.promises.get? pid = some pr) (hs : pr.state = PromSt.pending)
    (hh : pr.handler = some (sid, key)) :
    settle sys pid (Outcome.err e) =
      updCache
        { sys with promises := sys.promises.set pid { pr with state := PromSt.rejected e } }
        sid (fun c => aremove c key) := by
  simp only [settle, h, hs, hh]

/-! Frame lemmas: `get` and `settle` never change a store's factory map or
parent pointer, never change a factory's `transient` flag or behaviour,
and `get` never touches the counter of a factory other than the one it
resolves. -/

/-- The immutable part of a store record. -/
def skel (st : Store) : List (String × Nat) × Option Nat := (st.factories, st.parent)

theorem updCache_facts (sys : Sys) (sid : Nat)
    (f : List (String × Entry) → List (String × Entry)) :
    (updCache sys sid f).facts = sys.facts := by
  unfold updCache
  cases sys.stores.get? sid <;> rfl

theorem updCache_promises (sys : Sys) (sid : Nat)
    (f : List (String × Entry) → List (String × Entry)) :
    (updCache sys sid f).promises = sys.promises := by
  unfold updCache
  cases sys.stores.get? sid <;> rfl

theorem setHandler_stores (sys : Sys) (pid sid : Nat) (k : String) :
    (setHandler sys pid sid k).stores = sys.stores := by
  unfold setHandler
  cases sys.promises.get? pid <;> rfl

theorem setHandler_facts (sys : Sys) (pid sid : Nat) (k : String) :
    (setHandler sys pid sid k).facts = sys.facts := by
  unfold setHandler
  cases sys.promises.get? pid <;> rfl

theorem attachIfPromise_stores (sys : Sys) (v : Obj) (sid : Nat) (k : String) :
    (attachIfPromise sys v sid k).stores = sys.stores := by
  unfold attachIfPromise
  cases v with
  | plain i d a => rfl
  | promiseObj p => exact setHandler_stores sys p sid k

theorem attachIfPromise_facts (sys : Sys) (v : Obj) (sid : Nat) (k : String) :
    (attachIfPromise sys v sid k).facts = sys.facts := by
  unfold attachIfPromise
  cases v with
  | plain i d a => rfl
  | promiseObj p => exact setHandler_facts sys p sid k

theorem updCache_skel (sys : Sys) (sid : Nat)
    (f : List (String × Entry) → List (String × Entry)) (j : Nat) :
    ((updCache sys sid f).stores.get? j).map skel = (sys.stores.get? j).map skel := by
  unfold updCache
  cases hst : sys.stores.get? sid with
  | none => rfl
  | some st =>
    by_cases hj : sid = j
    · subst hj
      simp only [List.get?_set_eq, hst]
      rfl
    · simp only [List.get?_set_ne _ _ hj]

theorem updCache_get?_ne (sys : Sys) (sid : Nat)
    (f : List (String × Entry) → List (String × Entry)) (j : Nat) (hj : sid ≠ j) :
    (updCache sys sid f).stores.get? j = sys.stores.get? j := by
  unfold updCache
  cases hst : sys.stores.get? sid with
  | none => rfl
  | some st => simp only [List.get?_set_ne _ _ hj]

theorem facts_set_count_meta (fs : List Factory) (fid : Nat) (f : Factory) (c : Nat)
    (hfa : fs.get? fid = some f) (j : Nat) :
    ((fs.set fid { f with count := c }).get? j).map (fun g => g.transient)
      = (fs.get? j).map (fun g => g.transient) ∧
    ((fs.set fid { f with count := c }).get? j).map (fun g => g.beh)
      = (fs.get? j).map (fun g => g.beh) := by
  by_cases hj : fid = j
  · subst hj
    rw [List.get?_set_eq, hfa]
    exact ⟨rfl, rfl⟩
  · rw [List.get?_set_ne _ _ hj]
    exact ⟨rfl, rfl⟩

theorem get_nofact (fuel : Nat) (sys : Sys) (sid : Nat) (k : String)
    (st : Store) (fid : Nat)
    (hst : sys.stores.get? sid = some st)
    (hc : alookup st.cache k = none)
    (hf : alookup st.factories k = some fid)
    (hfa : sys.facts.get? fid = none) :
    Store.get (fuel + 1) sys sid k = (GetRes.err Err.internal, sys) := by
  simp only [Store.get, hst, hc, hf, hfa]

theorem get_frame (fuel : Nat) :
    ∀ (sys : Sys) (sid : Nat) (k : String),
      (∀ j, (((Store.get fuel sys sid k).2).stores.get? j).map skel
              = (sys.stores.get? j).map skel) ∧
      (∀ j, factTransient (Store.get fuel sys sid k).2 j = factTransient sys j) ∧
      (∀ j, factBeh (Store.get fuel sys sid k).2 j = factBeh sys j) := by
  induction fuel with
  | zero => exact fun sys sid k => ⟨fun j => rfl, fun j => rfl, fun j => rfl⟩
  | succ n ih =>
    intro sys sid k
    cases hst : sys.stores.get? sid with
    | none =>
      rw [get_nostore n sys sid k hst]
      exact ⟨fun j => rfl, fun j => rfl, fun j => rfl⟩
    | some st =>
      cases hc : alookup st.cache k with
      | some entry =>
        by_cases hp : entry.promisify
        · cases hv : entry.value with
          | plain i d a =>
            rw [get_hit_promisify_plain n sys sid k st entry i d a hst hc hp hv]
            exact ⟨fun j => rfl, fun j => rfl, fun j => rfl⟩
          | promiseObj p =>
            rw [get_hit_promisify_prom n sys sid k st entry p hst hc hp hv]
            exact ⟨fun j => rfl, fun j => rfl, fun j => rfl⟩
        · rw [get_hit n sys sid k st entry hst hc (Bool.eq_false_iff.mpr hp)]
          exact ⟨fun j => rfl, fun j => rfl, fun j => rfl⟩
      | none =>
        cases hf : alookup st.factories k with
        | some fid =>
          cases hfa : sys.facts.get? fid with
          | none =>
            rw [get_nofact n sys sid k st fid hst hc hf hfa]
            exact ⟨fun j => rfl, fun j => rfl, fun j => rfl⟩
          | some f =>
            cases hr : f.beh f.count with
            | fail e =>
              rw [get_miss_fail n sys sid k st fid f e hst hc hf hfa hr]
              refine ⟨fun j => rfl, fun j => ?_, fun j => ?_⟩
              · exact (facts_set_count_meta sys.facts fid f (f.count + 1) hfa j).1
              · exact (facts_set_count_meta sys.facts fid f (f.count + 1) hfa j).2
            | newProm =>
              by_cases ht : f.transient
              · rw [get_miss_newProm_transient n sys sid k st fid f hst hc hf hfa hr ht]
                refine ⟨fun j => rfl, fun j => ?_, fun j => ?_⟩
                · exact (facts_set_count_meta sys.facts fid f (f.count + 1) hfa j).1
                · exact (facts_set_count_meta sys.facts fid f (f.count + 1) hfa j).2
              · rw [get_miss_newProm n sys sid k st fid f hst hc hf hfa hr
                  (Bool.eq_false_iff.mpr ht)]
                refine ⟨fun j => ?_, fun j => ?_, fun j => ?_⟩
                · exact (updCache_skel _ sid _ j).trans rfl
                · show factTransient (updCache _ sid _) j = _
                  simp only [factTransient, updCache_facts]
                  exact (facts_set_count_meta sys.facts fid f (f.count + 1) hfa j).1
                · show factBeh (updCache _ sid _) j = _
                  simp only [factBeh, updCache_facts]
                  exact (facts_set_count_meta sys.facts fid f (f.count + 1) hfa j).2
            | val v =>
              by_cases ht : f.transient
              · rw [get_miss_val_transient n sys sid k st fid f v hst hc hf hfa hr ht]
                refine ⟨fun j => rfl, fun j => ?_, fun j => ?_⟩
                · exact (facts_set_count_meta sys.facts fid f (f.count + 1) hfa j).1
                · exact (facts_set_count_meta sys.facts fid f (f.count + 1) hfa j).2
              · rw [get_miss_val n sys sid k st fid f v hst hc hf hfa hr
                  (Bool.eq_false_iff.mpr ht)]
                refine ⟨fun j => ?_, fun j => ?_, fun j => ?_⟩
                · exact (updCache_skel _ sid _ j).trans
                    (by rw [attachIfPromise_stores])
                · show factTransient (updCache _ sid _) j = _
                  simp only [factTransient, updCache_facts, attachIfPromise_facts]
                  exact (facts_set_count_meta sys.facts fid f (f.count + 1) hfa j).1
                · show factBeh (updCache _ sid _) j = _
                  simp only [factBeh, updCache_facts, attachIfPromise_facts]
                  exact (facts_set_count_meta sys.facts fid f (f.count + 1) hfa j).2
        | none =>
          cases hpar : st.parent with
          | none =>
            rw [get_nokey_noparent n sys sid k st hst hc hf hpar]
            exact ⟨fun j => rfl, fun j => rfl, fun j => rfl⟩
          | some p =>
            by_cases hh : Store.has n sys p k
            · rw [get_delegate n sys sid k st p hst hc hf hpar hh]
              exact ih sys p k
            · rw [get_nokey_nothas n sys sid k st p hst hc hf hpar
                (Bool.eq_false_iff.mpr hh)]
              exact ⟨fun j => rfl, fun j => rfl, fun j => rfl⟩

theorem settle_facts (sys : Sys) (pid : Nat) (oc : Outcome) :
    (settle sys pid oc).facts = sys.facts := by
  unfold settle
  cases h : sys.promises.get? pid with
  | none => rfl
  | some pr =>
    obtain ⟨ps, ph⟩ := pr
    cases ps with
    | pending =>
      cases ph with
      | none => cases oc <;> rfl
      | some h2 =>
        obtain ⟨sid, key⟩ := h2
        cases oc <;> simp only [updCache_facts]
    | fulfilled v => rfl
    | rejected e => rfl

theorem settle_skel (sys : Sys) (pid : Nat) (oc : Outcome) (j : Nat) :
    ((settle sys pid oc).stores.get? j).map skel = (sys.stores.get? j).map skel := by
  unfold settle
  cases h : sys.promises.get? pid with
  | none => rfl
  | some pr =>
    obtain ⟨ps, ph⟩ := pr
    cases ps with
    | pending =>
      cases ph with
      | none => cases oc <;> rfl
      | some h2 =>
        obtain ⟨sid, key⟩ := h2
        cases oc <;> exact (updCache_skel _ sid _ j).trans rfl
    | fulfilled v => rfl
    | rejected e => rfl

/-! Derived frame congruences and extraction helpers. -/

theorem storeFactLookup_congr (sys1 sys2 : Sys) (j : Nat) (k : String)
    (h : (sys1.stores.get? j).map skel = (sys2.stores.get? j).map skel) :
    storeFactLookup sys1 j k = storeFactLookup sys2 j k := by
  unfold storeFactLookup
  cases h1 : sys1.stores.get? j with
  | none =>
    cases h2 : sys2.stores.get? j with
    | none => rfl
    | some st2 => rw [h1, h2] at h; simp at h
  | some st1 =>
    cases h2 : sys2.stores.get? j with
    | none => rw [h1, h2] at h; simp at h
    | some st2 =>
      rw [h1, h2] at h
      simp only [Option.map_some', Option.some.injEq, skel, Prod.mk.injEq] at h
      show alookup st1.factories k = alookup st2.factories k
      rw [h.1]

theorem storeParent_congr (sys1 sys2 : Sys) (j : Nat)
    (h : (sys1.stores.get? j).map skel = (sys2.stores.get? j).map skel) :
    storeParent sys1 j = storeParent sys2 j := by
  unfold storeParent
  cases h1 : sys1.stores.get? j with
  | none =>
    cases h2 : sys2.stores.get? j with
    | none => rfl
    | some st2 => rw [h1, h2] at h; simp at h
  | some st1 =>
    cases h2 : sys2.stores.get? j with
    | none => rw [h1, h2] at h; simp at h
    | some st2 =>
      rw [h1, h2] at h
      simp only [Option.map_some', Option.some.injEq, skel, Prod.mk.injEq] at h
      simp only [Option.map_some', h.2]

theorem get_storeFactLookup (fuel : Nat) (sys : Sys) (sid : Nat) (k : String)
    (j : Nat) (k' : String) :
    storeFactLookup (Store.get fuel sys sid k).2 j k' = storeFactLookup sys j k' :=
  storeFactLookup_congr _ _ j k' ((get_frame fuel sys sid k).1 j)

theorem get_storeParent (fuel : Nat) (sys : Sys) (sid : Nat) (k : String) (j : Nat) :
    storeParent (Store.get fuel sys sid k).2 j = storeParent sys j :=
  storeParent_congr _ _ j ((get_frame fuel sys sid k).1 j)

theorem settle_storeFactLookup (sys : Sys) (pid : Nat) (oc : Outcome)
    (j : Nat) (k' : String) :
    storeFactLookup (settle sys pid oc) j k' = storeFactLookup sys j k' :=
  storeFactLookup_congr _ _ j k' (settle_skel sys pid oc j)

theorem settle_storeParent (sys : Sys) (pid : Nat) (oc : Outcome) (j : Nat) :
    storeParent (settle sys pid oc) j = storeParent sys j :=
  storeParent_congr _ _ j (settle_skel sys pid oc j)

theorem settle_countOf (sys : Sys) (pid : Nat) (oc : Outcome) (j : Nat) :
    countOf (settle sys pid oc) j = countOf sys j := by
  unfold countOf
  rw [settle_facts]

theorem settle_factTransient (sys : Sys) (pid : Nat) (oc : Outcome) (j : Nat) :
    factTransient (settle sys pid oc) j = factTransient sys j := by
  unfold factTransient
  rw [settle_facts]

theorem settle_factBeh (sys : Sys) (pid : Nat) (oc : Outcome) (j : Nat) :
    factBeh (settle sys pid oc) j = factBeh sys j := by
  unfold factBeh
  rw [settle_facts]

theorem storeFactLookup_some (sys : Sys) (sid : Nat) (k : String) (fid : Nat)
    (h : storeFactLookup sys sid k = some fid) :
    ∃ st, sys.stores.get? sid = some st ∧ alookup st.factories k = some fid := by
  unfold storeFactLookup at h
  cases h1 : sys.stores.get? sid with
  | none => rw [h1] at h; exact absurd h (by simp)
  | some st => rw [h1] at h; exact ⟨st, rfl, h⟩

theorem storeParent_some (sys : Sys) (sid : Nat) (po : Option Nat)
    (h : storeParent sys sid = some po) :
    ∃ st, sys.stores.get? sid = some st ∧ st.parent = po := by
  unfold storeParent at h
  rcases Option.map_eq_some'.mp h with ⟨st, h1, h2⟩
  exact ⟨st, h1, h2⟩

theorem factTransient_some (sys : Sys) (fid : Nat) (b : Bool)
    (h : factTransient sys fid = some b) :
    ∃ f, sys.facts.get? fid = some f ∧ f.transient = b := by
  unfold factTransient at h
  rcases Option.map_eq_some'.mp h with ⟨f, h1, h2⟩
  exact ⟨f, h1, h2⟩

theorem factBeh_some (sys : Sys) (fid : Nat) (b : Nat → FRes)
    (h : factBeh sys fid = some b) :
    ∃ f, sys.facts.get? fid = some f ∧ f.beh = b := by
  unfold factBeh at h
  rcases Option.map_eq_some'.mp h with ⟨f, h1, h2⟩
  exact ⟨f, h1, h2⟩

theorem countOf_eq (sys : Sys) (fid : Nat) (f : Factory)
    (h : sys.facts.get? fid = some f) : countOf sys fid = f.count := by
  unfold countOf
  rw [h]

theorem cacheHasKeyB_false_lookup (sys : Sys) (sid : Nat) (k : String) (st : Store)
    (h : sys.stores.get? sid = some st) (hb : cacheHasKeyB sys sid k = false) :
    alookup st.cache k = none := by
  unfold cacheHasKeyB at hb
  rw [h] at hb
  exact (acontains_eq_false_iff _ _).mp hb

theorem cacheHasKeyB_true_lookup (sys : Sys) (sid : Nat) (k : String) (st : Store)
    (h : sys.stores.get? sid = some st) (hb : cacheHasKeyB sys sid k = true) :
    ∃ e, alookup st.cache k = some e := by
  unfold cacheHasKeyB at hb
  rw [h] at hb
  have hb2 : (alookup st.cache k).isSome = true := hb
  cases h2 : alookup st.cache k with
  | none => rw [h2] at hb2; simp at hb2
  | some e => exact ⟨e, rfl⟩

theorem acontains_aremove_ne {α : Type} (m : List (String × α)) {k k' : String}
    (h : k' ≠ k) : acontains (aremove m k) k' = acontains m k' := by
  simp [acontains, alookup_aremove_ne m h]

/-! Memoization invariant: for a parentless store owning a never-failing
factory at key `k`, any interleaving of `get k` calls and successful
settlements invokes the factory at most once. -/

theorem any_handler_set_state (l : List Prom) (n : Nat) (pr : Prom) (s : PromSt)
    (sid : Nat) (k : String) (hl : l.get? n = some pr) :
    (l.set n { pr with state := s }).any (fun q => q.handler = some (sid, k))
      = l.any (fun q => q.handler = some (sid, k)) := by
  induction l generalizing n with
  | nil => rfl
  | cons hd tl ih =>
    cases n with
    | zero =>
      simp only [List.get?] at hl
      injection hl with hl
      subst hl
      simp [List.set, List.any_cons]
    | succ m =>
      simp only [List.get?] at hl
      simp [List.set, List.any_cons, ih m hl]

theorem hasHandlerFor_congr (sys1 sys2 : Sys) (sid : Nat) (k : String)
    (h : sys1.promises = sys2.promises) :
    hasHandlerFor sys1 sid k = hasHandlerFor sys2 sid k := by
  unfold hasHandlerFor
  rw [h]

theorem settle_hasHandlerFor (sys : Sys) (pid : Nat) (oc : Outcome)
    (sid : Nat) (k : String) :
    hasHandlerFor (settle sys pid oc) sid k = hasHandlerFor sys sid k := by
  unfold settle
  cases h : sys.promises.get? pid with
  | none => rfl
  | some pr =>
    obtain ⟨ps, ph⟩ := pr
    cases ps with
    | pending =>
      cases ph with
      | none =>
        cases oc with
        | ok v =>
          unfold hasHandlerFor
          exact any_handler_set_state sys.promises pid ⟨PromSt.pending, none⟩
            (PromSt.fulfilled v) sid k h
        | err e =>
          unfold hasHandlerFor
          exact any_handler_set_state sys.promises pid ⟨PromSt.pending, none⟩
            (PromSt.rejected e) sid k h
      | some h2 =>
        obtain ⟨sid2, key2⟩ := h2
        cases oc with
        | ok v =>
          show hasHandlerFor (updCache _ sid2 _) sid k = _
          unfold hasHandlerFor
          rw [updCache_promises]
          exact any_handler_set_state sys.promises pid ⟨PromSt.pending, some (sid2, key2)⟩
            (PromSt.fulfilled v) sid k h
        | err e =>
          show hasHandlerFor (updCache _ sid2 _) sid k = _
          unfold hasHandlerFor
          rw [updCache_promises]
          exact any_handler_set_state sys.promises pid ⟨PromSt.pending, some (sid2, key2)⟩
            (PromSt.rejected e) sid k h
    | fulfilled v => rfl
    | rejected e => rfl

theorem cacheHasKeyB_updCache_ne (sys : Sys) (sid2 : Nat)
    (fn : List (String × Entry) → List (String × Entry)) (sid : Nat) (k : String)
    (h : sid2 ≠ sid) :
    cacheHasKeyB (updCache sys sid2 fn) sid k = cacheHasKeyB sys sid k := by
  unfold cacheHasKeyB
  rw [updCache_get?_ne sys sid2 fn sid h]

theorem cacheHasKeyB_updCache_self (sys : Sys) (sid : Nat)
    (fn : List (String × Entry) → List (String × Entry)) (k : String) :
    cacheHasKeyB (updCache sys sid fn) sid k
      = match sys.stores.get? sid with
        | some st => acontains (fn st.cache) k
        | none => false := by
  unfold cacheHasKeyB updCache
  cases h : sys.stores.get? sid with
  | none => rw [h]
  | some st =>
    have hlt : sid < sys.stores.length := by
      rcases List.get?_eq_some.mp h with ⟨hl, _⟩
      exact hl
    simp [h, List.get?_eq_getElem?, List.getElem?_set_self hlt]

theorem cacheHas_after_write (S : Sys) (sid : Nat) (k : String) (st : Store) (e : Entry)
    (hst : S.stores.get? sid = some st) :
    cacheHasKeyB (updCache S sid (fun c => ainsert c k e)) sid k = true := by
  rw [cacheHasKeyB_updCache_self, hst]
  exact acontains_ainsert_self st.cache k e

theorem settle_cacheHas_of_nohandler (sys : Sys) (pid : Nat) (oc : Outcome)
    (sid : Nat) (k : String) (hn : hasHandlerFor sys sid k = false) :
    cacheHasKeyB (settle sys pid oc) sid k = cacheHasKeyB sys sid k := by
  unfold settle
  cases h : sys.promises.get? pid with
  | none => rfl
  | some pr =>
    obtain ⟨ps, ph⟩ := pr
    cases ps with
    | pending =>
      cases ph with
      | none => cases oc <;> rfl
      | some h2 =>
        obtain ⟨sid2, key2⟩ := h2
        have hmem : (⟨PromSt.pending, some (sid2, key2)⟩ : Prom) ∈ sys.promises :=
          List.get?_mem h
        have hne : ¬((sid2, key2) = (sid, k)) := by
          intro hcontra
          have hany : sys.promises.any (fun q => q.handler = some (sid, k)) = true :=
            List.any_eq_true.mpr ⟨_, hmem, by simp [hcontra]⟩
          rw [hasHandlerFor] at hn
          rw [hn] at hany
          exact Bool.false_ne_true hany
        cases oc with
        | ok v =>
          by_cases hss : sid2 = sid
          · subst hss
            have hk2 : k ≠ key2 := by
              intro hk
              exact hne (by rw [hk])
            rw [cacheHasKeyB_updCache_self]
            show (match sys.stores.get? sid2 with
                  | some st => acontains (ainsert st.cache key2 ⟨true, v⟩) k
                  | none => false) = cacheHasKeyB sys sid2 k
            unfold cacheHasKeyB
            cases hs : sys.stores.get? sid2 with
            | none => rfl
            | some st => exact acontains_ainsert_ne st.cache _ hk2
          · rw [cacheHasKeyB_updCache_ne _ _ _ _ _ hss]
            rfl
        | err e =>
          by_cases hss : sid2 = sid
          · subst hss
            have hk2 : k ≠ key2 := by
              intro hk
              exact hne (by rw [hk])
            rw [cacheHasKeyB_updCache_self]
            show (match sys.stores.get? sid2 with
                  | some st => acontains (aremove st.cache key2) k
                  | none => false) = cacheHasKeyB sys sid2 k
            unfold cacheHasKeyB
            cases hs : sys.stores.get? sid2 with
            | none => rfl
            | some st => exact acontains_aremove_ne st.cache hk2
          · rw [cacheHasKeyB_updCache_ne _ _ _ _ _ hss]
            rfl
    | fulfilled v => rfl
    | rejected e => rfl

theorem settle_ok_cacheHas_mono (sys : Sys) (pid : Nat) (v : Obj)
    (sid : Nat) (k : String) (h : cacheHasKeyB sys sid k = true) :
    cacheHasKeyB (settle sys pid (Outcome.ok v)) sid k = true := by
  unfold settle
  cases hp : sys.promises.get? pid with
  | none => exact h
  | some pr =>
    obtain ⟨ps, ph⟩ := pr
    cases ps with
    | pending =>
      cases ph with
      | none => exact h
      | some h2 =>
        obtain ⟨sid2, key2⟩ := h2
        by_cases hss : sid2 = sid
        · subst hss
          rw [cacheHasKeyB_updCache_self]
          unfold cacheHasKeyB at h
          cases hs : sys.stores.get? sid2 with
          | none => rw [hs] at h; exact absurd h (by simp)
          | some st =>
            rw [hs] at h
            exact acontains_ainsert_of st.cache key2 k _ h
        · rw [cacheHasKeyB_updCache_ne _ _ _ _ _ hss]
          exact h
    | fulfilled v2 => exact h
    | rejected e => exact h

theorem facts_set_get_self (fs : List Factory) (fid : Nat) (f : Factory) (g : Factory)
    (hfa : fs.get? fid = some f) :
    (fs.set fid g).get? fid = some g := by
  rw [List.get?_set_eq, hfa]
  rfl

/-- Setup facts preserved by every step: store `sid` owns key `k` resolved
by non-transient factory `fid` with behaviour `beh`, and has no parent. -/
def memoSetup (sys : Sys) (sid fid : Nat) (k : String) (beh : Nat → FRes) : Prop :=
  storeFactLookup sys sid k = some fid ∧
  storeParent sys sid = some none ∧
  factTransient sys fid = some false ∧
  factBeh sys fid = some beh

/-- The memoization state invariant: either the factory has never run and
nothing is cached or pending for `(sid, k)`, or it has run exactly once
and the key is cached. -/
def memoInv (sys : Sys) (sid fid : Nat) (k : String) : Prop :=
  (countOf sys fid = 0 ∧ cacheHasKeyB sys sid k = false ∧ hasHandlerFor sys sid k = false) ∨
  (countOf sys fid = 1 ∧ cacheHasKeyB sys sid k = true)

theorem get_memoSetup (fuel : Nat) (sys : Sys) (sid fid : Nat) (k k2 : String)
    (beh : Nat → FRes) (hs : memoSetup sys sid fid k beh) :
    memoSetup (Store.get fuel sys sid k2).2 sid fid k beh :=
  ⟨(get_storeFactLookup fuel sys sid k2 sid k).trans hs.1,
   (get_storeParent fuel sys sid k2 sid).trans hs.2.1,
   ((get_frame fuel sys sid k2).2.1 fid).trans hs.2.2.1,
   ((get_frame fuel sys sid k2).2.2 fid).trans hs.2.2.2⟩

theorem settle_memoSetup (sys : Sys) (pid : Nat) (oc : Outcome) (sid fid : Nat)
    (k : String) (beh : Nat → FRes) (hs : memoSetup sys sid fid k beh) :
    memoSetup (settle sys pid oc) sid fid k beh :=
  ⟨(settle_storeFactLookup sys pid oc sid k).trans hs.1,
   (settle_storeParent sys pid oc sid).trans hs.2.1,
   (settle_factTransient sys pid oc fid).trans hs.2.2.1,
   (settle_factBeh sys pid oc fid).trans hs.2.2.2⟩

theorem countOf_congr (sys1 sys2 : Sys) (fid : Nat) (h : sys1.facts = sys2.facts) :
    countOf sys1 fid = countOf sys2 fid := by
  unfold countOf
  rw [h]

theorem get_step_memo (m : Nat) (sys : Sys) (sid fid : Nat) (k : String)
    (beh : Nat → FRes)
    (hbeh : ∀ n e, beh n ≠ FRes.fail e)
    (hsetup : memoSetup sys sid fid k beh)
    (hinv : memoInv sys sid fid k) :
    memoInv (Store.get (m + 1) sys sid k).2 sid fid k := by
  obtain ⟨hfl, hpar, htr, hbh⟩ := hsetup
  obtain ⟨st, hst, hf⟩ := storeFactLookup_some sys sid k fid hfl
  obtain ⟨f, hfa, hft⟩ := factTransient_some sys fid false htr
  obtain ⟨f2, hfa2, hfb⟩ := factBeh_some sys fid beh hbh
  rw [hfa] at hfa2
  injection hfa2 with he
  subst he
  rcases hinv with ⟨hc0, hcache, hhand⟩ | ⟨hc1, hcache⟩
  · -- factory has not yet run: this call invokes it and caches the result
    have hlk : alookup st.cache k = none := cacheHasKeyB_false_lookup sys sid k st hst hcache
    have hcnt : f.count = 0 := by
      rw [countOf_eq sys fid f hfa] at hc0
      exact hc0
    cases hb0 : beh 0 with
    | fail e => exact absurd hb0 (hbeh 0 e)
    | val v =>
      have hr : f.beh f.count = FRes.val v := by rw [hfb, hcnt, hb0]
      rw [get_miss_val m sys sid k st fid f v hst hlk hf hfa hr hft]
      right
      constructor
      · have hfacts :
            (updCache (attachIfPromise
                { sys with facts := sys.facts.set fid { f with count := f.count + 1 } }
                v sid k) sid (fun c => ainsert c k ⟨false, v⟩)).facts
              = sys.facts.set fid { f with count := f.count + 1 } := by
          rw [updCache_facts, attachIfPromise_facts]
        unfold countOf
        rw [hfacts, facts_set_get_self sys.facts fid f _ hfa]
        show f.count + 1 = 1
        rw [hcnt]
      · refine cacheHas_after_write _ sid k st _ ?_
        rw [attachIfPromise_stores]
        exact hst
    | newProm =>
      have hr : f.beh f.count = FRes.newProm := by rw [hfb, hcnt, hb0]
      rw [get_miss_newProm m sys sid k st fid f hst hlk hf hfa hr hft]
      right
      constructor
      · have hfacts :
            (updCache
              { sys with
                facts := sys.facts.set fid { f with count := f.count + 1 },
                promises := sys.promises ++ [⟨PromSt.pending, some (sid, k)⟩] }
              sid (fun c => ainsert c k ⟨false, Obj.promiseObj sys.promises.length⟩)).facts
              = sys.facts.set fid { f with count := f.count + 1 } := by
          rw [updCache_facts]
        unfold countOf
        rw [hfacts, facts_set_get_self sys.facts fid f _ hfa]
        show f.count + 1 = 1
        rw [hcnt]
      · exact cacheHas_after_write _ sid k st _ hst
  · -- already memoized: the cached entry is returned, nothing changes
    obtain ⟨e, he⟩ := cacheHasKeyB_true_lookup sys sid k st hst hcache
    by_cases hpe : e.promisify
    · cases hv : e.value with
      | plain i d a =>
        rw [get_hit_promisify_plain m sys sid k st e i d a hst he hpe hv]
        exact Or.inr ⟨hc1, hcache⟩
      | promiseObj p =>
        rw [get_hit_promisify_prom m sys sid k st e p hst he hpe hv]
        exact Or.inr ⟨hc1, hcache⟩
    · rw [get_hit m sys sid k st e hst he (Bool.eq_false_iff.mpr hpe)]
      exact Or.inr ⟨hc1, hcache⟩

theorem settle_step_memo (sys : Sys) (sid fid : Nat) (k : String) (pid : Nat) (v : Obj)
    (hinv : memoInv sys sid fid k) :
    memoInv (settle sys pid (Outcome.ok v)) sid fid k := by
  rcases hinv with ⟨hc0, hcache, hhand⟩ | ⟨hc1, hcache⟩
  · exact Or.inl ⟨(settle_countOf sys pid _ fid).trans hc0,
      (settle_cacheHas_of_nohandler sys pid _ sid k hhand).trans hcache,
      (settle_hasHandlerFor sys pid _ sid k).trans hhand⟩
  · exact Or.inr ⟨(settle_countOf sys pid _ fid).trans hc1,
      settle_ok_cacheHas_mono sys pid v sid k hcache⟩

theorem runEvs_memo (m : Nat) (sid fid : Nat) (k : String) (beh : Nat → FRes)
    (hbeh : ∀ n e, beh n ≠ FRes.fail e) :
    ∀ (evs : List Ev) (sys : Sys), evs.all (okEv k) = true →
      memoSetup sys sid fid k beh → memoInv sys sid fid k →
      memoSetup (runEvs (m + 1) sid sys evs) sid fid k beh ∧
        memoInv (runEvs (m + 1) sid sys evs) sid fid k := by
  intro evs
  induction evs with
  | nil => exact fun sys _ hs hi => ⟨hs, hi⟩
  | cons ev rest ih =>
    intro sys hall hs hi
    rw [List.all_cons, Bool.and_eq_true] at hall
    cases ev with
    | get k2 =>
      have hk2 : k2 = k := by
        have := hall.1
        unfold okEv at this
        exact of_decide_eq_true this
      subst hk2
      exact ih ((Store.get (m + 1) sys sid k2).2) hall.2
        (get_memoSetup (m + 1) sys sid fid k2 k2 beh hs)
        (get_step_memo m sys sid fid k2 beh hbeh hs hi)
    | settleEv pid oc =>
      cases oc with
      | ok v =>
        exact ih (settle sys pid (Outcome.ok v)) hall.2
          (settle_memoSetup sys pid (Outcome.ok v) sid fid k beh hs)
          (settle_step_memo sys sid fid k pid v hi)
      | err e =>
        have := hall.1
        unfold okEv at this
        exact absurd this (by simp)

theorem updCache_get_self (S : Sys) (sid : Nat)
    (fn : List (String × Entry) → List (String × Entry)) (st : Store)
    (hst : S.stores.get? sid = some st) :
    (updCache S sid fn).stores.get? sid = some { st with cache := fn st.cache } := by
  unfold updCache
  rw [hst]
  show (S.stores.set sid _).get? sid = _
  rw [List.get?_set_eq, hst]
  rfl

theorem getResults_stable (m sid : Nat) (k : String) (sys : Sys) (st : Store) (e : Entry)
    (hst : sys.stores.get? sid = some st) (hc : alookup st.cache k = some e)
    (hp : e.promisify = false) :
    ∀ n, getResults (m + 1) sid k n sys = List.replicate n (GetRes.ok e.value) := by
  intro n
  induction n with
  | zero => rfl
  | succ n ih =>
    simp only [getResults]
    rw [get_hit m sys sid k st e hst hc hp]
    simp only [List.replicate_succ]
    rw [← ih]

theorem runGets_stable (m sid : Nat) (k : String) (sys : Sys) (st : Store) (e : Entry)
    (hst : sys.stores.get? sid = some st) (hc : alookup st.cache k = some e)
    (hp : e.promisify = false) :
    ∀ n, runEvs (m + 1) sid sys (List.replicate n (Ev.get k)) = sys := by
  intro n
  induction n with
  | zero => rfl
  | succ n ih =>
    simp only [List.replicate_succ, runEvs, stepEv]
    rw [get_hit m sys sid k st e hst hc hp]
    exact ih

/-- Scenario for the counterexample to claim C1: one parentless store,
one non-transient asynchronous factory at key `a`. -/
def c1sysA : Sys :=
  ⟨[⟨[("a", 0)], none, []⟩], [⟨false, fun _ => FRes.newProm, 0⟩], []⟩

/-- State of the C1 counterexample scenario after the first `get` call and
a successful settlement of the produced promise. -/
def c1sysB : Sys :=
  settle (Store.get 1 c1sysA 0 "a").2 0 (Outcome.ok (Obj.plain 7 false false))

/-- Claim C1, counterexample: for an asynchronous (promise-returning)
factory, the first `get` returns the in-flight promise (object 0), but a
`get` issued after the promise has settled successfully returns a freshly
synthesized already-resolved promise (object 1) — not the same value the
first call returned.  The universally quantified claim "every call after
the first returns the same cached value as the first" is therefore false
at this input. -/
theorem claim_C1_counterexample :
    (Store.get 1 c1sysA 0 "a").1 = GetRes.ok (Obj.promiseObj 0) ∧
    (Store.get 1 c1sysB 0 "a").1 = GetRes.ok (Obj.promiseObj 1) ∧
    (Store.get 1 c1sysB 0 "a").1 ≠ (Store.get 1 c1sysA 0 "a").1 := by
  refine ⟨rfl, rfl, ?_⟩
  intro h
  have : Obj.promiseObj 1 = Obj.promiseObj 0 := by
    have h1 : (Store.get 1 c1sysB 0 "a").1 = GetRes.ok (Obj.promiseObj 1) := rfl
    have h2 : (Store.get 1 c1sysA 0 "a").1 = GetRes.ok (Obj.promiseObj 0) := rfl
    rw [h1, h2] at h
    injection h
  injection this with h3
  exact Nat.one_ne_zero h3

/-- Claim C1 (amended): for a non-transient key owned by a parentless
store whose factory never throws, (1) any interleaving of `get k` calls
and successful settlements invokes the factory at most once, and (2) every
`get k` call issued before any settlement returns the same value as the
first call (after a successful asynchronous settlement, later calls
instead return fresh already-resolved wrappers — see C4). -/
theorem claim_C1_memoization (m sid fid : Nat) (k : String) (beh : Nat → FRes)
    (sys : Sys)
    (hbeh : ∀ n e, beh n ≠ FRes.fail e)
    (hsetup : memoSetup sys sid fid k beh)
    (hc0 : countOf sys fid = 0)
    (hcache : cacheHasKeyB sys sid k = false)
    (hhand : hasHandlerFor sys sid k = false) :
    (∀ evs : List Ev, evs.all (okEv k) = true →
        countOf (runEvs (m + 1) sid sys evs) fid ≤ 1) ∧
    (∀ n, getResults (m + 1) sid k (n + 1) sys
        = List.replicate (n + 1) (Store.get (m + 1) sys sid k).1) := by
  refine ⟨?_, ?_⟩
  · intro evs hall
    have h := runEvs_memo m sid fid k beh hbeh evs sys hall hsetup
      (Or.inl ⟨hc0, hcache, hhand⟩)
    rcases h.2 with ⟨h0, _, _⟩ | ⟨h1, _⟩
    · rw [h0]; exact Nat.zero_le 1
    · rw [h1]
  · intro n
    obtain ⟨hfl, hpar, htr, hbh⟩ := hsetup
    obtain ⟨st, hst, hf⟩ := storeFactLookup_some sys sid k fid hfl
    obtain ⟨f, hfa, hft⟩ := factTransient_some sys fid false htr
    obtain ⟨f2, hfa2, hfb⟩ := factBeh_some sys fid beh hbh
    rw [hfa] at hfa2
    injection hfa2 with he
    subst he
    have hlk : alookup st.cache k = none := cacheHasKeyB_false_lookup sys sid k st hst hcache
    have hcnt : f.count = 0 := by
      rw [countOf_eq sys fid f hfa] at hc0
      exact hc0
    cases hb0 : beh 0 with
    | fail e => exact absurd hb0 (hbeh 0 e)
    | val v =>
      have hr : f.beh f.count = FRes.val v := by rw [hfb, hcnt, hb0]
      have hget := get_miss_val m sys sid k st fid f v hst hlk hf hfa hr hft
      have hst1 : ((Store.get (m + 1) sys sid k).2).stores.get? sid
          = some { st with cache := ainsert st.cache k ⟨false, v⟩ } := by
        rw [hget]
        refine updCache_get_self _ sid _ st ?_
        rw [attachIfPromise_stores]
        exact hst
      have hfst : (Store.get (m + 1) sys sid k).1 = GetRes.ok v := by rw [hget]
      have htail := getResults_stable m sid k (Store.get (m + 1) sys sid k).2
        { st with cache := ainsert st.cache k ⟨false, v⟩ } ⟨false, v⟩ hst1
        (alookup_ainsert_self st.cache k ⟨false, v⟩) rfl n
      simp only [getResults]
      rw [hfst, htail, List.replicate_succ]
    | newProm =>
      have hr : f.beh f.count = FRes.newProm := by rw [hfb, hcnt, hb0]
      have hget := get_miss_newProm m sys sid k st fid f hst hlk hf hfa hr hft
      have hst1 : ((Store.get (m + 1) sys sid k).2).stores.get? sid
          = some { st with cache := ainsert st.cache k ⟨false, Obj.promiseObj sys.promises.length⟩ } := by
        rw [hget]
        exact updCache_get_self _ sid _ st hst
      have hfst : (Store.get (m + 1) sys sid k).1
          = GetRes.ok (Obj.promiseObj sys.promises.length) := by rw [hget]
      have htail := getResults_stable m sid k (Store.get (m + 1) sys sid k).2
        { st with cache := ainsert st.cache k ⟨false, Obj.promiseObj sys.promises.length⟩ }
        ⟨false, Obj.promiseObj sys.promises.length⟩ hst1
        (alookup_ainsert_self st.cache k _) rfl n
      simp only [getResults]
      rw [hfst, htail, List.replicate_succ]

/-- Scenario for the C1 witness: a parentless store with a synchronous
counting factory at key `a`. -/
def c1wsys : Sys :=
  ⟨[⟨[("a", 0)], none, []⟩], [⟨false, fun _ => FRes.val (Obj.plain 5 false false), 0⟩], []⟩

/-- Witness for the amended claim C1 at a concrete input. -/
theorem claim_C1_memoization_witness :
    ((∀ (n e : Nat), (fun _ => FRes.val (Obj.plain 5 false false)) n ≠ FRes.fail e) ∧
      memoSetup c1wsys 0 0 "a" (fun _ => FRes.val (Obj.plain 5 false false)) ∧
      countOf c1wsys 0 = 0 ∧ cacheHasKeyB c1wsys 0 "a" = false ∧
      hasHandlerFor c1wsys 0 "a" = false) ∧
    countOf (runEvs 1 0 c1wsys [Ev.get "a", Ev.get "a"]) 0 ≤ 1 ∧
    getResults 1 0 "a" 2 c1wsys = List.replicate 2 (Store.get 1 c1wsys 0 "a").1 := by
  have h := claim_C1_memoization 0 0 0 "a" (fun _ => FRes.val (Obj.plain 5 false false))
    c1wsys (fun n e hh => FRes.noConfusion hh) ⟨rfl, rfl, rfl, rfl⟩ rfl rfl rfl
  exact ⟨⟨fun n e hh => FRes.noConfusion hh, ⟨rfl, rfl, rfl, rfl⟩, rfl, rfl, rfl⟩,
    h.1 [Ev.get "a", Ev.get "a"] (by decide), h.2 1⟩

/-- Claim C3: when a non-transient factory returns a pending promise, the
cache entry holding that promise is written as part of the same `get` step
(before any suspension point), the promise carries the memoization
reaction and is pending, and every later `get k` issued before the
promise settles returns the identical promise object without invoking the
factory again (the store state, and hence the invocation counter, is
unchanged by those reads). -/
theorem claim_C3_single_flight (m sid fid : Nat) (k : String) (sys : Sys)
    (st : Store) (f : Factory)
    (hst : sys.stores.get? sid = some st)
    (hc : alookup st.cache k = none)
    (hf : alookup st.factories k = some fid)
    (hfa : sys.facts.get? fid = some f)
    (hr : f.beh f.count = FRes.newProm)
    (ht : f.transient = false) :
    (Store.get (m + 1) sys sid k).1 = GetRes.ok (Obj.promiseObj sys.promises.length) ∧
    storeCache (Store.get (m + 1) sys sid k).2 sid
      = some (ainsert st.cache k ⟨false, Obj.promiseObj sys.promises.length⟩) ∧
    ((Store.get (m + 1) sys sid k).2).promises.get? sys.promises.length
      = some ⟨PromSt.pending, some (sid, k)⟩ ∧
    countOf (Store.get (m + 1) sys sid k).2 fid = f.count + 1 ∧
    (∀ n, getResults (m + 1) sid k n (Store.get (m + 1) sys sid k).2
        = List.replicate n (GetRes.ok (Obj.promiseObj sys.promises.length))) ∧
    (∀ n, runEvs (m + 1) sid (Store.get (m + 1) sys sid k).2 (List.replicate n (Ev.get k))
        = (Store.get (m + 1) sys sid k).2) := by
  have hget := get_miss_newProm m sys sid k st fid f hst hc hf hfa hr ht
  have hst1 : ((Store.get (m + 1) sys sid k).2).stores.get? sid
      = some { st with cache := ainsert st.cache k ⟨false, Obj.promiseObj sys.promises.length⟩ } := by
    rw [hget]
    exact updCache_get_self _ sid _ st hst
  refine ⟨by rw [hget], ?_, ?_, ?_, ?_, ?_⟩
  · unfold storeCache
    rw [hst1]
    rfl
  · rw [hget]
    show (updCache _ sid _).promises.get? sys.promises.length = _
    rw [updCache_promises]
    exact List.get?_concat_length sys.promises ⟨PromSt.pending, some (sid, k)⟩
  · rw [hget]
    show countOf (updCache _ sid _) fid = _
    unfold countOf
    rw [updCache_facts]
    show (match (sys.facts.set fid { f with count := f.count + 1 }).get? fid with
          | some g => g.count
          | none => 0) = f.count + 1
    rw [facts_set_get_self sys.facts fid f _ hfa]
  · exact fun n => getResults_stable m sid k _ _ ⟨false, Obj.promiseObj sys.promises.length⟩
      hst1 (alookup_ainsert_self st.cache k _) rfl n
  · exact fun n => runGets_stable m sid k _ _ ⟨false, Obj.promiseObj sys.promises.length⟩
      hst1 (alookup_ainsert_self st.cache k _) rfl n

/-- Witness for claim C3 at a concrete input. -/
theorem claim_C3_single_flight_witness :
    (c1sysA.stores.get? 0 = some ⟨[("a", 0)], none, []⟩ ∧
      c1sysA.facts.get? 0 = some ⟨false, fun _ => FRes.newProm, 0⟩) ∧
    (Store.get 1 c1sysA 0 "a").1 = GetRes.ok (Obj.promiseObj 0) ∧
    storeCache (Store.get 1 c1sysA 0 "a").2 0 = some [("a", ⟨false, Obj.promiseObj 0⟩)] ∧
    ((Store.get 1 c1sysA 0 "a").2).promises.get? 0 = some ⟨PromSt.pending, some (0, "a")⟩ ∧
    countOf (Store.get 1 c1sysA 0 "a").2 0 = 1 ∧
    getResults 1 0 "a" 3 (Store.get 1 c1sysA 0 "a").2
      = List.replicate 3 (GetRes.ok (Obj.promiseObj 0)) := by
  have h := claim_C3_single_flight 0 0 0 "a" c1sysA ⟨[("a", 0)], none, []⟩
    ⟨false, fun _ => FRes.newProm, 0⟩ rfl rfl rfl rfl rfl rfl
  exact ⟨⟨rfl, rfl⟩, h.1, h.2.1, h.2.2.1, h.2.2.2.1, h.2.2.2.2.1 3⟩

theorem list_set_get_self {α : Type} (l : List α) (n : Nat) (a b : α)
    (h : l.get? n = some a) : (l.set n b).get? n = some b := by
  rw [List.get?_set_eq, h]
  rfl

/-- Claim C4: once the pending promise of a non-transient key settles
successfully, the memoization reaction replaces the cache entry by a
`promisify` entry holding the resolved value; each subsequent `get`
synthesizes a fresh already-fulfilled promise (a new object per read,
distinct from the original in-flight promise) wrapping the identical
resolved value, without invoking any factory. -/
theorem claim_C4_settle_and_replace (m sid pid0 : Nat) (k : String) (sys : Sys)
    (st : Store) (i : Nat) (d a : Bool)
    (hst : sys.stores.get? sid = some st)
    (hc : alookup st.cache k = some ⟨false, Obj.promiseObj pid0⟩)
    (hp : sys.promises.get? pid0 = some ⟨PromSt.pending, some (sid, k)⟩) :
    storeCache (settle sys pid0 (Outcome.ok (Obj.plain i d a))) sid
      = some (ainsert st.cache k ⟨true, Obj.plain i d a⟩) ∧
    (settle sys pid0 (Outcome.ok (Obj.plain i d a))).promises.get? pid0
      = some ⟨PromSt.fulfilled (Obj.plain i d a), some (sid, k)⟩ ∧
    (Store.get (m + 1) (settle sys pid0 (Outcome.ok (Obj.plain i d a))) sid k).1
      = GetRes.ok (Obj.promiseObj sys.promises.length) ∧
    ((Store.get (m + 1) (settle sys pid0 (Outcome.ok (Obj.plain i d a))) sid k).2).promises.get?
        sys.promises.length
      = some ⟨PromSt.fulfilled (Obj.plain i d a), none⟩ ∧
    (Store.get (m + 1)
        ((Store.get (m + 1) (settle sys pid0 (Outcome.ok (Obj.plain i d a))) sid k).2) sid k).1
      = GetRes.ok (Obj.promiseObj (sys.promises.length + 1)) ∧
    ((Store.get (m + 1)
        ((Store.get (m + 1) (settle sys pid0 (Outcome.ok (Obj.plain i d a))) sid k).2) sid k).2).promises.get?
        (sys.promises.length + 1)
      = some ⟨PromSt.fulfilled (Obj.plain i d a), none⟩ ∧
    pid0 ≠ sys.promises.length ∧
    pid0 ≠ sys.promises.length + 1 ∧
    sys.promises.length ≠ sys.promises.length + 1 ∧
    ((Store.get (m + 1)
        ((Store.get (m + 1) (settle sys pid0 (Outcome.ok (Obj.plain i d a))) sid k).2) sid k).2).facts
      = sys.facts := by
  have hlt : pid0 < sys.promises.length := by
    rcases List.get?_eq_some.mp hp with ⟨hl, _⟩
    exact hl
  have hs1eq := settle_ok_handler sys pid0 (Obj.plain i d a)
    ⟨PromSt.pending, some (sid, k)⟩ sid k hp rfl rfl
  have hstores1 : (settle sys pid0 (Outcome.ok (Obj.plain i d a))).stores.get? sid
      = some { st with cache := ainsert st.cache k ⟨true, Obj.plain i d a⟩ } := by
    rw [hs1eq]
    exact updCache_get_self _ sid _ st hst
  have hfacts1 : (settle sys pid0 (Outcome.ok (Obj.plain i d a))).facts = sys.facts :=
    settle_facts sys pid0 _
  have hlen1 : (settle sys pid0 (Outcome.ok (Obj.plain i d a))).promises.length
      = sys.promises.length := by
    rw [hs1eq, updCache_promises]
    exact List.length_set sys.promises pid0 _
  have hprom1 : (settle sys pid0 (Outcome.ok (Obj.plain i d a))).promises.get? pid0
      = some ⟨PromSt.fulfilled (Obj.plain i d a), some (sid, k)⟩ := by
    rw [hs1eq]
    show (updCache _ sid _).promises.get? pid0 = _
    rw [updCache_promises]
    exact list_set_get_self sys.promises pid0 _ _ hp
  have hcache1 : alookup ({ st with cache := ainsert st.cache k ⟨true, Obj.plain i d a⟩ } : Store).cache k
      = some ⟨true, Obj.plain i d a⟩ := alookup_ainsert_self st.cache k _
  have hr2 := get_hit_promisify_plain m (settle sys pid0 (Outcome.ok (Obj.plain i d a))) sid k
    { st with cache := ainsert st.cache k ⟨true, Obj.plain i d a⟩ }
    ⟨true, Obj.plain i d a⟩ i d a hstores1 hcache1 rfl rfl
  have hr3 := get_hit_promisify_plain m
    (Sys.mk (settle sys pid0 (Outcome.ok (Obj.plain i d a))).stores
      (settle sys pid0 (Outcome.ok (Obj.plain i d a))).facts
      ((settle sys pid0 (Outcome.ok (Obj.plain i d a))).promises
        ++ [(⟨PromSt.fulfilled (Obj.plain i d a), none⟩ : Prom)])) sid k
    { st with cache := ainsert st.cache k ⟨true, Obj.plain i d a⟩ }
    ⟨true, Obj.plain i d a⟩ i d a hstores1 hcache1 rfl rfl
  refine ⟨?_, hprom1, ?_, ?_, ?_, ?_, ?_, ?_, ?_, ?_⟩
  · unfold storeCache
    rw [hstores1]
    rfl
  · rw [hr2, hlen1]
  · simp only [hr2]
    show ((settle sys pid0 (Outcome.ok (Obj.plain i d a))).promises
        ++ [(⟨PromSt.fulfilled (Obj.plain i d a), none⟩ : Prom)]).get? sys.promises.length = _
    rw [← hlen1]
    exact List.get?_concat_length _ _
  · simp only [hr2]
    rw [hr3]
    show GetRes.ok (Obj.promiseObj ((settle sys pid0 (Outcome.ok (Obj.plain i d a))).promises
        ++ [(⟨PromSt.fulfilled (Obj.plain i d a), none⟩ : Prom)]).length) = _
    rw [List.length_append, hlen1]
    rfl
  · simp only [hr2]
    rw [hr3]
    show (((settle sys pid0 (Outcome.ok (Obj.plain i d a))).promises
          ++ [(⟨PromSt.fulfilled (Obj.plain i d a), none⟩ : Prom)])
        ++ [(⟨PromSt.fulfilled (Obj.plain i d a), none⟩ : Prom)]).get? (sys.promises.length + 1) = _
    have hlen2 : ((settle sys pid0 (Outcome.ok (Obj.plain i d a))).promises
        ++ [(⟨PromSt.fulfilled (Obj.plain i d a), none⟩ : Prom)]).length = sys.promises.length + 1 := by
      rw [List.length_append, hlen1]
      rfl
    rw [← hlen2]
    exact List.get?_concat_length _ _
  · exact Nat.ne_of_lt hlt
  · exact Nat.ne_of_lt (Nat.lt_succ_of_lt hlt)
  · exact Nat.ne_of_lt (Nat.lt_succ_self _)
  · simp only [hr2]
    rw [hr3]
    exact hfacts1

/-- Scenario for the C4/C5 witnesses: state of `c1sysA` after the first
`get`, holding an in-flight promise for key `a`. -/
def c4wsys : Sys := (Store.get 1 c1sysA 0 "a").2

/-- Witness for claim C4 at a concrete input. -/
theorem claim_C4_settle_and_replace_witness :
    (c4wsys.stores.get? 0 = some ⟨[("a", 0)], none, [("a", ⟨false, Obj.promiseObj 0⟩)]⟩ ∧
      alookup [("a", (⟨false, Obj.promiseObj 0⟩ : Entry))] "a" = some ⟨false, Obj.promiseObj 0⟩ ∧
      c4wsys.promises.get? 0 = some ⟨PromSt.pending, some (0, "a")⟩) ∧
    (Store.get 1 (settle c4wsys 0 (Outcome.ok (Obj.plain 7 false false))) 0 "a").1
      = GetRes.ok (Obj.promiseObj 1) ∧
    (Store.get 1
        ((Store.get 1 (settle c4wsys 0 (Outcome.ok (Obj.plain 7 false false))) 0 "a").2) 0 "a").1
      = GetRes.ok (Obj.promiseObj 2) := by
  have h := claim_C4_settle_and_replace 0 0 0 "a" c4wsys
    ⟨[("a", 0)], none, [("a", ⟨false, Obj.promiseObj 0⟩)]⟩ 7 false false rfl rfl rfl
  exact ⟨⟨rfl, rfl, rfl⟩, h.2.2.1, h.2.2.2.2.1⟩

/-- Claim C5: a failed settlement records the rejection on the promise
(observed by callers already holding it) and deletes the cache entry, so
the next `get` invokes the factory again from scratch; when that retry
produces an ordinary value, the value is returned and memoized. -/
theorem claim_C5_retry_after_failure (m sid pid fid : Nat) (k : String) (sys : Sys)
    (st : Store) (f : Factory) (e0 i : Nat) (d a : Bool)
    (hst : sys.stores.get? sid = some st)
    (hp : sys.promises.get? pid = some ⟨PromSt.pending, some (sid, k)⟩)
    (hf : alookup st.factories k = some fid)
    (hfa : sys.facts.get? fid = some f)
    (ht : f.transient = false)
    (hr : f.beh f.count = FRes.val (Obj.plain i d a)) :
    (settle sys pid (Outcome.err e0)).promises.get? pid
      = some ⟨PromSt.rejected e0, some (sid, k)⟩ ∧
    storeCache (settle sys pid (Outcome.err e0)) sid = some (aremove st.cache k) ∧
    alookup (aremove st.cache k) k = none ∧
    (Store.get (m + 1) (settle sys pid (Outcome.err e0)) sid k).1
      = GetRes.ok (Obj.plain i d a) ∧
    countOf (Store.get (m + 1) (settle sys pid (Outcome.err e0)) sid k).2 fid
      = f.count + 1 ∧
    storeCache (Store.get (m + 1) (settle sys pid (Outcome.err e0)) sid k).2 sid
      = some (ainsert (aremove st.cache k) k ⟨false, Obj.plain i d a⟩) := by
  have hs1eq := settle_err_handler sys pid e0 ⟨PromSt.pending, some (sid, k)⟩ sid k hp rfl rfl
  have hstores1 : (settle sys pid (Outcome.err e0)).stores.get? sid
      = some { st with cache := aremove st.cache k } := by
    rw [hs1eq]
    exact updCache_get_self _ sid _ st hst
  have hfacts1 : (settle sys pid (Outcome.err e0)).facts = sys.facts := settle_facts sys pid _
  have hfa1 : (settle sys pid (Outcome.err e0)).facts.get? fid = some f := by
    rw [hfacts1]
    exact hfa
  have hget := get_miss_val m (settle sys pid (Outcome.err e0)) sid k
    { st with cache := aremove st.cache k } fid f (Obj.plain i d a)
    hstores1 (alookup_aremove_self st.cache k) hf hfa1 hr ht
  refine ⟨?_, ?_, alookup_aremove_self st.cache k, ?_, ?_, ?_⟩
  · rw [hs1eq]
    show (updCache _ sid _).promises.get? pid = _
    rw [updCache_promises]
    exact list_set_get_self sys.promises pid _ _ hp
  · unfold storeCache
    rw [hstores1]
    rfl
  · rw [hget]
  · rw [hget]
    show countOf (updCache _ sid _) fid = _
    unfold countOf
    rw [updCache_facts, attachIfPromise_facts]
    show (match ((settle sys pid (Outcome.err e0)).facts.set fid
            { f with count := f.count + 1 }).get? fid with
          | some g => g.count
          | none => 0) = f.count + 1
    rw [facts_set_get_self _ fid f _ hfa1]
  · rw [hget]
    unfold storeCache
    rw [updCache_get_self _ sid _ { st with cache := aremove st.cache k } (by
      rw [attachIfPromise_stores]
      exact hstores1)]
    rfl

/-- Scenario for the C5 witness: an asynchronous factory that succeeds
with an ordinary value on its second invocation. -/
def c5sys0 : Sys :=
  ⟨[⟨[("a", 0)], none, []⟩],
   [⟨false, fun n => if n = 0 then FRes.newProm else FRes.val (Obj.plain 9 false false), 0⟩],
   []⟩

/-- State of the C5 witness scenario after the first `get` call. -/
def c5wsys : Sys := (Store.get 1 c5sys0 0 "a").2

/-- Witness for claim C5 at a concrete input. -/
theorem claim_C5_retry_after_failure_witness :
    (c5wsys.stores.get? 0 = some ⟨[("a", 0)], none, [("a", ⟨false, Obj.promiseObj 0⟩)]⟩ ∧
      c5wsys.promises.get? 0 = some ⟨PromSt.pending, some (0, "a")⟩) ∧
    (settle c5wsys 0 (Outcome.err 4)).promises.get? 0
      = some ⟨PromSt.rejected 4, some (0, "a")⟩ ∧
    (Store.get 1 (settle c5wsys 0 (Outcome.err 4)) 0 "a").1
      = GetRes.ok (Obj.plain 9 false false) ∧
    countOf (Store.get 1 (settle c5wsys 0 (Outcome.err 4)) 0 "a").2 0 = 2 ∧
    storeCache (Store.get 1 (settle c5wsys 0 (Outcome.err 4)) 0 "a").2 0
      = some [("a", ⟨false, Obj.plain 9 false false⟩)] := by
  have h := claim_C5_retry_after_failure 0 0 0 0 "a" c5wsys
    ⟨[("a", 0)], none, [("a", ⟨false, Obj.promiseObj 0⟩)]⟩
    ⟨false, fun n => if n = 0 then FRes.newProm else FRes.val (Obj.plain 9 false false), 1⟩
    4 9 false false rfl rfl rfl rfl rfl rfl
  exact ⟨⟨rfl, rfl⟩, h.1, h.2.2.2.1, h.2.2.2.2.1, h.2.2.2.2.2⟩

theorem transient_run (m sid fid : Nat) (k : String) (beh : Nat → FRes) (vf : Nat → Obj)
    (hbv : ∀ j, beh j = FRes.val (vf j)) :
    ∀ (n : Nat) (sys : Sys) (st : Store) (f : Factory),
      sys.stores.get? sid = some st → alookup st.cache k = none →
      alookup st.factories k = some fid → sys.facts.get? fid = some f →
      f.transient = true → f.beh = beh →
      getResults (m + 1) sid k n sys
          = (List.range n).map (fun j => GetRes.ok (vf (f.count + j))) ∧
      (runEvs (m + 1) sid sys (List.replicate n (Ev.get k))).stores = sys.stores ∧
      countOf (runEvs (m + 1) sid sys (List.replicate n (Ev.get k))) fid = f.count + n := by
  intro n
  induction n with
  | zero =>
    intro sys st f hst hc hf hfa htr hfb
    exact ⟨rfl, rfl, countOf_eq sys fid f hfa⟩
  | succ n ih =>
    intro sys st f hst hc hf hfa htr hfb
    have hr : f.beh f.count = FRes.val (vf f.count) := by rw [hfb, hbv]
    have hget := get_miss_val_transient m sys sid k st fid f (vf f.count) hst hc hf hfa hr htr
    have hfa1 : ({ sys with facts := sys.facts.set fid { f with count := f.count + 1 } } : Sys).facts.get? fid
        = some { f with count := f.count + 1 } := facts_set_get_self sys.facts fid f _ hfa
    have hih := ih { sys with facts := sys.facts.set fid { f with count := f.count + 1 } }
      st { f with count := f.count + 1 } hst hc hf hfa1 htr hfb
    refine ⟨?_, ?_, ?_⟩
    · simp only [getResults]
      rw [hget, hih.1, List.range_succ_eq_map, List.map_cons, List.map_map]
      congr 1
      refine List.map_congr_left ?_
      intro j _
      show GetRes.ok (vf (f.count + 1 + j)) = GetRes.ok (vf (f.count + Nat.succ j))
      have hj : f.count + 1 + j = f.count + Nat.succ j := by omega
      rw [hj]
    · simp only [List.replicate_succ, runEvs, stepEv]
      rw [hget]
      exact hih.2.1
    · simp only [List.replicate_succ, runEvs, stepEv]
      rw [hget]
      have := hih.2.2
      rw [this]
      show f.count + 1 + n = f.count + (n + 1)
      omega

/-- Claim C6: for a transient key, every `get` invokes the factory again
(the invocation counter after `n` calls is `n`), the store table — in
particular every cache — is left entirely unchanged, and the `j`-th call
returns the factory's `j`-th independently produced value. -/
theorem claim_C6_transient (m sid fid n : Nat) (k : String) (beh : Nat → FRes)
    (vf : Nat → Obj) (sys : Sys) (st : Store) (f : Factory)
    (hbv : ∀ j, beh j = FRes.val (vf j))
    (hst : sys.stores.get? sid = some st)
    (hc : alookup st.cache k = none)
    (hf : alookup st.factories k = some fid)
    (hfa : sys.facts.get? fid = some f)
    (htr : f.transient = true)
    (hfb : f.beh = beh)
    (hcnt : f.count = 0) :
    getResults (m + 1) sid k n sys = (List.range n).map (fun j => GetRes.ok (vf j)) ∧
    (runEvs (m + 1) sid sys (List.replicate n (Ev.get k))).stores = sys.stores ∧
    countOf (runEvs (m + 1) sid sys (List.replicate n (Ev.get k))) fid = n := by
  have h := transient_run m sid fid k beh vf hbv n sys st f hst hc hf hfa htr hfb
  refine ⟨?_, h.2.1, ?_⟩
  · rw [h.1]
    refine List.map_congr_left ?_
    intro j _
    rw [hcnt, Nat.zero_add]
  · rw [h.2.2, hcnt, Nat.zero_add]

/-- Scenario for the C6 witness: a transient factory producing a fresh
object on every invocation. -/
def c6wsys : Sys :=
  ⟨[⟨[("a", 0)], none, []⟩],
   [⟨true, fun j => FRes.val (Obj.plain j false false), 0⟩], []⟩

/-- Witness for claim C6 at a concrete input. -/
theorem claim_C6_transient_witness :
    (c6wsys.stores.get? 0 = some ⟨[("a", 0)], none, []⟩ ∧
      c6wsys.facts.get? 0 = some ⟨true, fun j => FRes.val (Obj.plain j false false), 0⟩) ∧
    getResults 1 0 "a" 3 c6wsys
      = (List.range 3).map (fun j => GetRes.ok (Obj.plain j false false)) ∧
    (runEvs 1 0 c6wsys (List.replicate 3 (Ev.get "a"))).stores = c6wsys.stores ∧
    countOf (runEvs 1 0 c6wsys (List.replicate 3 (Ev.get "a"))) 0 = 3 := by
  have h := claim_C6_transient 0 0 0 3 "a" (fun j => FRes.val (Obj.plain j false false))
    (fun j => Obj.plain j false false) c6wsys ⟨[("a", 0)], none, []⟩
    ⟨true, fun j => FRes.val (Obj.plain j false false), 0⟩
    (fun j => rfl) rfl rfl rfl rfl rfl rfl rfl
  exact ⟨⟨rfl, rfl⟩, h.1, h.2.1, h.2.2⟩

theorem fresh_get_run (m : Nat) (sys : Sys) (sid fid fidOther : Nat) (k : String)
    (fm : List (String × Nat)) (f : Factory)
    (hstF : sys.stores.get? sid = some ⟨fm, none, []⟩)
    (hf : alookup fm k = some fid)
    (hfa : sys.facts.get? fid = some f)
    (htr : f.transient = false)
    (hcnt : f.count = 0)
    (hbe : ∀ e, f.beh 0 ≠ FRes.fail e)
    (hne : fid ≠ fidOther) :
    ∀ nn, countOf (runEvs (m + 1) sid sys (List.replicate (nn + 1) (Ev.get k))) fid = 1 ∧
      countOf (runEvs (m + 1) sid sys (List.replicate (nn + 1) (Ev.get k))) fidOther
        = countOf sys fidOther := by
  intro nn
  have hc : alookup ([] : List (String × Entry)) k = none := rfl
  cases hb : f.beh f.count with
  | fail e =>
    rw [hcnt] at hb
    exact absurd hb (hbe e)
  | val v =>
    have hget := get_miss_val m sys sid k ⟨fm, none, []⟩ fid f v hstF hc hf hfa hb htr
    have hst1 : ((Store.get (m + 1) sys sid k).2).stores.get? sid
        = some ⟨fm, none, ainsert [] k ⟨false, v⟩⟩ := by
      rw [hget]
      refine updCache_get_self _ sid _ ⟨fm, none, []⟩ ?_
      rw [attachIfPromise_stores]
      exact hstF
    have hrun : runEvs (m + 1) sid sys (List.replicate (nn + 1) (Ev.get k))
        = (Store.get (m + 1) sys sid k).2 := by
      simp only [List.replicate_succ, runEvs, stepEv]
      exact runGets_stable m sid k _ ⟨fm, none, ainsert [] k ⟨false, v⟩⟩ ⟨false, v⟩
        hst1 (alookup_ainsert_self [] k _) rfl nn
    rw [hrun, hget]
    constructor
    · show countOf (updCache _ sid _) fid = 1
      unfold countOf
      rw [updCache_facts, attachIfPromise_facts]
      show (match (sys.facts.set fid { f with count := f.count + 1 }).get? fid with
            | some g => g.count
            | none => 0) = 1
      rw [facts_set_get_self sys.facts fid f _ hfa]
      show f.count + 1 = 1
      rw [hcnt]
    · show countOf (updCache _ sid _) fidOther = countOf sys fidOther
      unfold countOf
      rw [updCache_facts, attachIfPromise_facts]
      show (match (sys.facts.set fid { f with count := f.count + 1 }).get? fidOther with
            | some g => g.count
            | none => 0) = _
      rw [List.get?_set_ne _ _ hne]
  | newProm =>
    have hget := get_miss_newProm m sys sid k ⟨fm, none, []⟩ fid f hstF hc hf hfa hb htr
    have hst1 : ((Store.get (m + 1) sys sid k).2).stores.get? sid
        = some ⟨fm, none, ainsert [] k ⟨false, Obj.promiseObj sys.promises.length⟩⟩ := by
      rw [hget]
      exact updCache_get_self _ sid _ ⟨fm, none, []⟩ hstF
    have hrun : runEvs (m + 1) sid sys (List.replicate (nn + 1) (Ev.get k))
        = (Store.get (m + 1) sys sid k).2 := by
      simp only [List.replicate_succ, runEvs, stepEv]
      exact runGets_stable m sid k _
        ⟨fm, none, ainsert [] k ⟨false, Obj.promiseObj sys.promises.length⟩⟩
        ⟨false, Obj.promiseObj sys.promises.length⟩
        hst1 (alookup_ainsert_self [] k _) rfl nn
    rw [hrun, hget]
    constructor
    · show countOf (updCache _ sid _) fid = 1
      unfold countOf
      rw [updCache_facts]
      show (match (sys.facts.set fid { f with count := f.count + 1 }).get? fid with
            | some g => g.count
            | none => 0) = 1
      rw [facts_set_get_self sys.facts fid f _ hfa]
      show f.count + 1 = 1
      rw [hcnt]
    · show countOf (updCache _ sid _) fidOther = countOf sys fidOther
      unfold countOf
      rw [updCache_facts]
      show (match (sys.facts.set fid { f with count := f.count + 1 }).get? fidOther with
            | some g => g.count
            | none => 0) = _
      rw [List.get?_set_ne _ _ hne]

/-- Claim C2: `override` is pure — it returns a new definition mapping `k`
to the replacement factory and leaving every other key and the parent
unchanged, while the receiver's map still maps `k` to the original
factory.  Behaviourally, over any number of `get k` calls an instance
finalized from the base definition `D` invokes the original factory
exactly once and never invokes the override factory, and an instance
finalized from `D2 = D.override(k, f2)` invokes the override factory
exactly once and never invokes the original. -/
theorem claim_C2_override_isolation (m fid1 fid2 : Nat) (k : String)
    (d : StoreDefinition) (sys : Sys) (beh1 beh2 : Nat → FRes)
    (hne : fid1 ≠ fid2)
    (hdk : alookup d.factories k = some fid1)
    (hdp : d.parentStore = none)
    (ht1 : factTransient sys fid1 = some false)
    (hb1 : factBeh sys fid1 = some beh1)
    (hc1 : countOf sys fid1 = 0)
    (ht2 : factTransient sys fid2 = some false)
    (hb2 : factBeh sys fid2 = some beh2)
    (hc2 : countOf sys fid2 = 0)
    (hbe1 : ∀ e, beh1 0 ≠ FRes.fail e)
    (hbe2 : ∀ e, beh2 0 ≠ FRes.fail e) :
    alookup (StoreDefinition.override d k fid2).factories k = some fid2 ∧
    (∀ k2, k2 ≠ k →
      alookup (StoreDefinition.override d k fid2).factories k2 = alookup d.factories k2) ∧
    (StoreDefinition.override d k fid2).parentStore = d.parentStore ∧
    alookup d.factories k = some fid1 ∧
    (∀ nn,
      countOf (runEvs (m + 1) (StoreDefinition.finalize sys d).1
        (StoreDefinition.finalize sys d).2 (List.replicate (nn + 1) (Ev.get k))) fid1 = 1 ∧
      countOf (runEvs (m + 1) (StoreDefinition.finalize sys d).1
        (StoreDefinition.finalize sys d).2 (List.replicate (nn + 1) (Ev.get k))) fid2 = 0) ∧
    (∀ nn,
      countOf (runEvs (m + 1)
        (StoreDefinition.finalize sys (StoreDefinition.override d k fid2)).1
        (StoreDefinition.finalize sys (StoreDefinition.override d k fid2)).2
        (List.replicate (nn + 1) (Ev.get k))) fid2 = 1 ∧
      countOf (runEvs (m + 1)
        (StoreDefinition.finalize sys (StoreDefinition.override d k fid2)).1
        (StoreDefinition.finalize sys (StoreDefinition.override d k fid2)).2
        (List.replicate (nn + 1) (Ev.get k))) fid1 = 0) := by
  obtain ⟨f1, hfa1, hft1⟩ := factTransient_some sys fid1 false ht1
  obtain ⟨f1b, hfa1b, hfb1⟩ := factBeh_some sys fid1 beh1 hb1
  rw [hfa1] at hfa1b
  injection hfa1b with he1
  subst he1
  obtain ⟨f2, hfa2, hft2⟩ := factTransient_some sys fid2 false ht2
  obtain ⟨f2b, hfa2b, hfb2⟩ := factBeh_some sys fid2 beh2 hb2
  rw [hfa2] at hfa2b
  injection hfa2b with he2
  subst he2
  have hcnt1 : f1.count = 0 := by rw [countOf_eq sys fid1 f1 hfa1] at hc1; exact hc1
  have hcnt2 : f2.count = 0 := by rw [countOf_eq sys fid2 f2 hfa2] at hc2; exact hc2
  refine ⟨alookup_ainsert_self d.factories k fid2,
    fun k2 hk2 => alookup_ainsert_ne d.factories fid2 hk2, rfl, hdk, ?_, ?_⟩
  · intro nn
    have hstF : ((StoreDefinition.finalize sys d).2).stores.get?
        (StoreDefinition.finalize sys d).1 = some ⟨d.factories, none, []⟩ := by
      show (sys.stores ++ [(⟨d.factories, d.parentStore, []⟩ : Store)]).get? sys.stores.length = _
      rw [hdp]
      exact List.get?_concat_length sys.stores _
    have h := fresh_get_run m (StoreDefinition.finalize sys d).2
      (StoreDefinition.finalize sys d).1 fid1 fid2 k d.factories f1
      hstF hdk hfa1 hft1 hcnt1 (by rw [hfb1]; exact hbe1) hne nn
    exact ⟨h.1, h.2.trans hc2⟩
  · intro nn
    have hstF : ((StoreDefinition.finalize sys (StoreDefinition.override d k fid2)).2).stores.get?
        (StoreDefinition.finalize sys (StoreDefinition.override d k fid2)).1
        = some ⟨(StoreDefinition.override d k fid2).factories, none, []⟩ := by
      show (sys.stores ++ [(⟨(StoreDefinition.override d k fid2).factories,
        d.parentStore, []⟩ : Store)]).get? sys.stores.length = _
      rw [hdp]
      exact List.get?_concat_length sys.stores _
    have h := fresh_get_run m (StoreDefinition.finalize sys (StoreDefinition.override d k fid2)).2
      (StoreDefinition.finalize sys (StoreDefinition.override d k fid2)).1 fid2 fid1 k
      (StoreDefinition.override d k fid2).factories f2
      hstF (alookup_ainsert_self d.factories k fid2) hfa2 hft2 hcnt2
      (by rw [hfb2]; exact hbe2) (fun hh => hne hh.symm) nn
    exact ⟨h.1, h.2.trans hc1⟩

/-- Scenario for the C2 witness: two distinct non-transient factories. -/
def c2wsys : Sys :=
  ⟨[],
   [⟨false, fun _ => FRes.val (Obj.plain 1 false false), 0⟩,
    ⟨false, fun _ => FRes.val (Obj.plain 2 false false), 0⟩],
   []⟩

/-- Base definition of the C2 witness: key `a` bound to factory 0. -/
def c2wdef : StoreDefinition := ⟨[("a", 0)], none⟩

/-- Witness for claim C2 at a concrete input. -/
theorem claim_C2_override_isolation_witness :
    ((0 : Nat) ≠ 1 ∧ alookup c2wdef.factories "a" = some 0 ∧
      factTransient c2wsys 0 = some false ∧ countOf c2wsys 0 = 0 ∧
      factTransient c2wsys 1 = some false ∧ countOf c2wsys 1 = 0) ∧
    alookup (StoreDefinition.override c2wdef "a" 1).factories "a" = some 1 ∧
    alookup c2wdef.factories "a" = some 0 ∧
    (countOf (runEvs 1 (StoreDefinition.finalize c2wsys c2wdef).1
        (StoreDefinition.finalize c2wsys c2wdef).2 (List.replicate 2 (Ev.get "a"))) 0 = 1 ∧
      countOf (runEvs 1 (StoreDefinition.finalize c2wsys c2wdef).1
        (StoreDefinition.finalize c2wsys c2wdef).2 (List.replicate 2 (Ev.get "a"))) 1 = 0) ∧
    (countOf (runEvs 1
        (StoreDefinition.finalize c2wsys (StoreDefinition.override c2wdef "a" 1)).1
        (StoreDefinition.finalize c2wsys (StoreDefinition.override c2wdef "a" 1)).2
        (List.replicate 2 (Ev.get "a"))) 1 = 1 ∧
      countOf (runEvs 1
        (StoreDefinition.finalize c2wsys (StoreDefinition.override c2wdef "a" 1)).1
        (StoreDefinition.finalize c2wsys (StoreDefinition.override c2wdef "a" 1)).2
        (List.replicate 2 (Ev.get "a"))) 0 = 0) := by
  have h := claim_C2_override_isolation 0 0 1 "a" c2wdef c2wsys
    (fun _ => FRes.val (Obj.plain 1 false false))
    (fun _ => FRes.val (Obj.plain 2 false false))
    (by decide) rfl rfl rfl rfl rfl rfl rfl rfl
    (fun e hh => FRes.noConfusion hh) (fun e hh => FRes.noConfusion hh)
  exact ⟨⟨by decide, rfl, rfl, rfl, rfl, rfl⟩, h.1, h.2.2.2.1,
    h.2.2.2.2.1 1, h.2.2.2.2.2 1⟩

/-- Claim C7: `add` fails with `DuplicateKey` exactly when the key is in
the definition's own factory map or resolvable through the parent chain
(`parent.has(key)`); on success it returns a new definition whose factory
map is the old map with the new entry appended, sharing the same parent
(the receiver, a pure value, is untouched). -/
theorem claim_C7_duplicate_rejection (fuel : Nat) (sys : Sys) (d : StoreDefinition)
    (k : String) (fid : Nat) :
    (StoreDefinition.add fuel sys d k fid = Except.error (Err.duplicateKey k)
      ↔ (acontains d.factories k ||
          (match d.parentStore with
           | some p => Store.has fuel sys p k
           | none => false)) = true) ∧
    ((acontains d.factories k ||
        (match d.parentStore with
         | some p => Store.has fuel sys p k
         | none => false)) = false →
      StoreDefinition.add fuel sys d k fid
        = Except.ok ⟨d.factories ++ [(k, fid)], d.parentStore⟩) := by
  by_cases hcond : (acontains d.factories k ||
      (match d.parentStore with
       | some p => Store.has fuel sys p k
       | none => false)) = true
  · constructor
    · exact ⟨fun _ => hcond, fun _ => by
        unfold StoreDefinition.add
        rw [if_pos hcond]⟩
    · intro hfalse
      rw [hcond] at hfalse
      exact absurd hfalse (by decide)
  · have hcond' := Bool.eq_false_iff.mpr hcond
    have hadd : StoreDefinition.add fuel sys d k fid
        = Except.ok ⟨ainsert d.factories k fid, d.parentStore⟩ := by
      unfold StoreDefinition.add
      rw [if_neg hcond]
    constructor
    · constructor
      · intro h
        rw [hadd] at h
        exact Except.noConfusion h
      · intro h
        rw [h] at hcond'
        exact absurd hcond' (by decide)
    · intro _
      have hac : acontains d.factories k = false := (Bool.or_eq_false_iff.mp hcond').1
      rw [hadd, ainsert_eq_append d.factories k fid hac]

/-- Scenario for the C7/C8 witnesses: a parent store owning key `a` and a
child store delegating to it. -/
def c8wsys : Sys :=
  ⟨[⟨[("a", 0)], none, []⟩, ⟨[], some 0, []⟩],
   [⟨false, fun _ => FRes.val (Obj.plain 3 true false), 0⟩], []⟩

/-- Witness for claim C7 at concrete inputs: a duplicate through the
parent chain is rejected, a fresh key is appended. -/
theorem claim_C7_duplicate_rejection_witness :
    StoreDefinition.add 2 c8wsys ⟨[], some 0⟩ "a" 1 = Except.error (Err.duplicateKey "a") ∧
    StoreDefinition.add 2 c8wsys ⟨[], some 0⟩ "b" 1 = Except.ok ⟨[("b", 1)], some 0⟩ := by
  constructor
  · exact (claim_C7_duplicate_rejection 2 c8wsys ⟨[], some 0⟩ "a" 1).1.mpr (by decide)
  · exact (claim_C7_duplicate_rejection 2 c8wsys ⟨[], some 0⟩ "b" 1).2 (by decide)

/-- Bounded check that every store's parent pointer refers to an
earlier-created store (always true of states built through the API, since
`createChild` can only name an existing store). -/
def parentsDecB (sys : Sys) : Bool :=
  (List.range sys.stores.length).all (fun i =>
    match sys.stores.get? i with
    | some st =>
      match st.parent with
      | some p => decide (p < i)
      | none => true
    | none => true)

theorem parentsDecB_lt (sys : Sys) (h : parentsDecB sys = true) :
    ∀ i st p, sys.stores.get? i = some st → st.parent = some p → p < i := by
  intro i st p hst hpar
  have hi : i < sys.stores.length := (List.get?_eq_some.mp hst).1
  have hmem : i ∈ List.range sys.stores.length := List.mem_range.mpr hi
  have hall := List.all_eq_true.mp h i hmem
  simp only [hst, hpar] at hall
  exact of_decide_eq_true hall

theorem get_stores_high (fuel : Nat) :
    ∀ (sys : Sys) (sid : Nat) (k : String) (j : Nat),
      (∀ i st p, sys.stores.get? i = some st → st.parent = some p → p < i) →
      sid < j →
      ((Store.get fuel sys sid k).2).stores.get? j = sys.stores.get? j := by
  induction fuel with
  | zero => intro sys sid k j _ _; rfl
  | succ n ih =>
    intro sys sid k j hdec hj
    have hne : sid ≠ j := Nat.ne_of_lt hj
    cases hst : sys.stores.get? sid with
    | none => rw [get_nostore n sys sid k hst]
    | some st =>
      cases hc : alookup st.cache k with
      | some entry =>
        by_cases hp : entry.promisify
        · cases hv : entry.value with
          | plain i d a => rw [get_hit_promisify_plain n sys sid k st entry i d a hst hc hp hv]
          | promiseObj p => rw [get_hit_promisify_prom n sys sid k st entry p hst hc hp hv]
        · rw [get_hit n sys sid k st entry hst hc (Bool.eq_false_iff.mpr hp)]
      | none =>
        cases hf : alookup st.factories k with
        | some fid =>
          cases hfa : sys.facts.get? fid with
          | none => rw [get_nofact n sys sid k st fid hst hc hf hfa]
          | some f =>
            cases hr : f.beh f.count with
            | fail e => rw [get_miss_fail n sys sid k st fid f e hst hc hf hfa hr]
            | newProm =>
              by_cases ht : f.transient
              · rw [get_miss_newProm_transient n sys sid k st fid f hst hc hf hfa hr ht]
              · rw [get_miss_newProm n sys sid k st fid f hst hc hf hfa hr
                  (Bool.eq_false_iff.mpr ht)]
                exact updCache_get?_ne _ sid _ j hne
            | val v =>
              by_cases ht : f.transient
              · rw [get_miss_val_transient n sys sid k st fid f v hst hc hf hfa hr ht]
              · rw [get_miss_val n sys sid k st fid f v hst hc hf hfa hr
                  (Bool.eq_false_iff.mpr ht)]
                refine (updCache_get?_ne _ sid _ j hne).trans ?_
                rw [attachIfPromise_stores]
        | none =>
          cases hpar : st.parent with
          | none => rw [get_nokey_noparent n sys sid k st hst hc hf hpar]
          | some p =>
            by_cases hh : Store.has n sys p k
            · rw [get_delegate n sys sid k st p hst hc hf hpar hh]
              exact ih sys p k j hdec (Nat.lt_trans (hdec sid st p hst hpar) hj)
            · rw [get_nokey_nothas n sys sid k st p hst hc hf hpar
                (Bool.eq_false_iff.mpr hh)]

/-- Claim C8: when a key is neither cached nor in the own factory map,
`get` delegates entirely to the parent when one exists and `parent.has`
holds (the child's own store record — in particular its cache — is left
unchanged, and when the parent resolves through its own factory the
resulting cache entry is written into the parent's cache), and otherwise
fails with `KeyNotFound`. -/
theorem claim_C8_parent_delegation (m sid : Nat) (k : String) (sys : Sys) (st : Store)
    (hdec : parentsDecB sys = true)
    (hst : sys.stores.get? sid = some st)
    (hc : alookup st.cache k = none)
    (hf : alookup st.factories k = none) :
    (∀ p, st.parent = some p → Store.has (m + 1) sys p k = true →
      Store.get (m + 1 + 1) sys sid k = Store.get (m + 1) sys p k ∧
      ((Store.get (m + 1) sys p k).2).stores.get? sid = sys.stores.get? sid) ∧
    (st.parent = none →
      Store.get (m + 1 + 1) sys sid k = (GetRes.err (Err.keyNotFound k), sys)) ∧
    (∀ p, st.parent = some p → Store.has (m + 1) sys p k = false →
      Store.get (m + 1 + 1) sys sid k = (GetRes.err (Err.keyNotFound k), sys)) ∧
    (∀ p pst fid f i d a, st.parent = some p → sys.stores.get? p = some pst →
      alookup pst.cache k = none → alookup pst.factories k = some fid →
      sys.facts.get? fid = some f → f.transient = false →
      f.beh f.count = FRes.val (Obj.plain i d a) →
      (Store.get (m + 1 + 1) sys sid k).1 = GetRes.ok (Obj.plain i d a) ∧
      storeCache (Store.get (m + 1 + 1) sys sid k).2 p
        = some (ainsert pst.cache k ⟨false, Obj.plain i d a⟩) ∧
      ((Store.get (m + 1 + 1) sys sid k).2).stores.get? sid = sys.stores.get? sid) := by
  have hdec' := parentsDecB_lt sys hdec
  refine ⟨?_, ?_, ?_, ?_⟩
  · intro p hpar hh
    refine ⟨get_delegate (m + 1) sys sid k st p hst hc hf hpar hh, ?_⟩
    exact get_stores_high (m + 1) sys p k sid hdec' (hdec' sid st p hst hpar)
  · intro hpar
    exact get_nokey_noparent (m + 1) sys sid k st hst hc hf hpar
  · intro p hpar hh
    exact get_nokey_nothas (m + 1) sys sid k st p hst hc hf hpar hh
  · intro p pst fid f i d a hpar hpst hpc hpf hfa hft hr
    have hplt : p < sid := hdec' sid st p hst hpar
    have hhas : Store.has (m + 1) sys p k = true := by
      simp only [Store.has, hpst]
      simp [acontains, hpf]
    have hdel := get_delegate (m + 1) sys sid k st p hst hc hf hpar hhas
    have hget := get_miss_val m sys p k pst fid f (Obj.plain i d a) hpst hpc hpf hfa hr hft
    refine ⟨?_, ?_, ?_⟩
    · rw [hdel, hget]
    · rw [hdel, hget]
      unfold storeCache
      rw [updCache_get_self _ p _ pst (by
        rw [attachIfPromise_stores]
        exact hpst)]
      rfl
    · rw [hdel]
      exact get_stores_high (m + 1) sys p k sid hdec' hplt

/-- Witness for claim C8 at a concrete input: the child delegates key `a`
to the parent (which memoizes it in its own cache, the child's cache
staying empty) and fails with `KeyNotFound` on an unknown key. -/
theorem claim_C8_parent_delegation_witness :
    (parentsDecB c8wsys = true ∧
      c8wsys.stores.get? 1 = some ⟨[], some 0, []⟩) ∧
    Store.get 2 c8wsys 1 "a" = Store.get 1 c8wsys 0 "a" ∧
    (Store.get 2 c8wsys 1 "a").1 = GetRes.ok (Obj.plain 3 true false) ∧
    storeCache (Store.get 2 c8wsys 1 "a").2 0
      = some [("a", ⟨false, Obj.plain 3 true false⟩)] ∧
    ((Store.get 2 c8wsys 1 "a").2).stores.get? 1 = c8wsys.stores.get? 1 ∧
    Store.get 2 c8wsys 1 "b" = (GetRes.err (Err.keyNotFound "b"), c8wsys) := by
  have h := claim_C8_parent_delegation 0 1 "a" c8wsys ⟨[], some 0, []⟩
    (by decide) rfl rfl rfl
  have hb := claim_C8_parent_delegation 0 1 "b" c8wsys ⟨[], some 0, []⟩
    (by decide) rfl rfl rfl
  have h4 := h.2.2.2 0 ⟨[("a", 0)], none, []⟩ 0
    ⟨false, fun _ => FRes.val (Obj.plain 3 true false), 0⟩ 3 true false
    rfl rfl rfl rfl rfl rfl rfl
  refine ⟨⟨by decide, rfl⟩, ?_, h4.1, h4.2.1, ?_, ?_⟩
  · exact (h.1 0 rfl (by decide)).1
  · exact h4.2.2
  · exact hb.2.2.1 0 rfl (by decide)

/-- A cached value that exposes only the asynchronous disposal capability
(the situation that makes synchronous disposal fail). -/
def asyncOnlyB (e : Entry) : Bool :=
  objHasAsyncDispose e.value && !objHasDispose e.value

/-- Selection performed by synchronous disposal: invoke the sync
capability where present. -/
def syncSel (q : String × Entry) : Option DispCall :=
  if objHasDispose q.2.value then some (DispCall.syncCall q.2.value) else none

/-- Selection performed by asynchronous disposal: prefer the async
capability, fall back to the sync one. -/
def asyncSel (q : String × Entry) : Option DispCall :=
  if objHasAsyncDispose q.2.value then some (DispCall.asyncCall q.2.value)
  else if objHasDispose q.2.value then some (DispCall.syncCall q.2.value)
  else none

theorem disposeSyncGo_err (c : List (String × Entry)) :
    (disposeSyncGo c).2 = c.any (fun q => asyncOnlyB q.2) := by
  induction c with
  | nil => rfl
  | cons hd tl ih =>
    obtain ⟨key, e⟩ := hd
    by_cases hd1 : objHasDispose e.value
    · simp [disposeSyncGo, hd1, List.any_cons, asyncOnlyB, ih]
    · by_cases hd2 : objHasAsyncDispose e.value
      · simp [disposeSyncGo, hd1, hd2, List.any_cons, asyncOnlyB]
      · simp [disposeSyncGo, hd1, hd2, List.any_cons, asyncOnlyB, ih]

theorem disposeSyncGo_calls (c : List (String × Entry)) :
    (disposeSyncGo c).2 = false →
    (disposeSyncGo c).1 = c.filterMap syncSel := by
  induction c with
  | nil => intro _; rfl
  | cons hd tl ih =>
    obtain ⟨key, e⟩ := hd
    intro herr
    by_cases hd1 : objHasDispose e.value
    · have herr' : (disposeSyncGo tl).2 = false := by
        simp only [disposeSyncGo, hd1, if_pos] at herr
        exact herr
      simp [disposeSyncGo, hd1, List.filterMap_cons, syncSel, ih herr']
    · by_cases hd2 : objHasAsyncDispose e.value
      · simp [disposeSyncGo, hd1, hd2] at herr
      · have herr' : (disposeSyncGo tl).2 = false := by
          simp only [disposeSyncGo, hd1, hd2, if_neg, Bool.false_eq_true] at herr
          exact herr
        simp [disposeSyncGo, hd1, hd2, List.filterMap_cons, syncSel, ih herr']

theorem disposeAsyncGo_spec (c : List (String × Entry)) :
    ∀ sys : Sys,
      (disposeAsyncGo sys c).1 = c.filterMap asyncSel ∧
      (disposeAsyncGo sys c).2.2.stores = sys.stores ∧
      (disposeAsyncGo sys c).2.2.facts = sys.facts ∧
      (∃ tail, (disposeAsyncGo sys c).2.2.promises = sys.promises ++ tail) ∧
      (∀ pid ∈ (disposeAsyncGo sys c).2.1,
        (disposeAsyncGo sys c).2.2.promises.get? pid = some ⟨PromSt.pending, none⟩) := by
  induction c with
  | nil =>
    intro sys
    exact ⟨rfl, rfl, rfl, ⟨[], by simp [disposeAsyncGo]⟩, fun pid h => absurd h (List.not_mem_nil pid)⟩
  | cons hd tl ih =>
    intro sys
    obtain ⟨key, e⟩ := hd
    by_cases hd2 : objHasAsyncDispose e.value
    · have hih := ih { sys with promises := sys.promises ++ [⟨PromSt.pending, none⟩] }
      obtain ⟨tail, htail⟩ := hih.2.2.2.1
      refine ⟨?_, ?_, ?_, ?_, ?_⟩
      · simp only [disposeAsyncGo, hd2, if_pos, List.filterMap_cons, asyncSel]
        rw [hih.1]
      · simp only [disposeAsyncGo, hd2, if_pos]
        exact hih.2.1
      · simp only [disposeAsyncGo, hd2, if_pos]
        exact hih.2.2.1
      · refine ⟨⟨PromSt.pending, none⟩ :: tail, ?_⟩
        simp only [disposeAsyncGo, hd2, if_pos]
        rw [htail]
        simp
      · intro pid hmem
        simp only [disposeAsyncGo, hd2, if_pos] at hmem ⊢
        rcases List.mem_cons.mp hmem with hpid | hpid
        · subst hpid
          rw [htail]
          have hlt : sys.promises.length < (sys.promises ++ [(⟨PromSt.pending, none⟩ : Prom)]).length := by
            simp
          rw [show sys.promises ++ [(⟨PromSt.pending, none⟩ : Prom)] ++ tail
              = (sys.promises ++ [(⟨PromSt.pending, none⟩ : Prom)]) ++ tail from rfl]
          rw [List.get?_append hlt]
          exact List.get?_concat_length sys.promises _
        · exact hih.2.2.2.2 pid hpid
    · by_cases hd1 : objHasDispose e.value
      · have hih := ih sys
        refine ⟨?_, ?_, ?_, ?_, ?_⟩
        · simp only [disposeAsyncGo, hd2, hd1, List.filterMap_cons, asyncSel, if_neg, if_pos,
            Bool.false_eq_true]
          rw [hih.1]
          simp [hd2]
        · simp only [disposeAsyncGo, hd2, hd1, Bool.false_eq_true, if_neg, if_pos]
          exact hih.2.1
        · simp only [disposeAsyncGo, hd2, hd1, Bool.false_eq_true, if_neg, if_pos]
          exact hih.2.2.1
        · simp only [disposeAsyncGo, hd2, hd1, Bool.false_eq_true, if_neg, if_pos]
          exact hih.2.2.2.1
        · intro pid hmem
          simp only [disposeAsyncGo, hd2, hd1, Bool.false_eq_true, if_neg, if_pos] at hmem ⊢
          exact hih.2.2.2.2 pid hmem
      · have hih := ih sys
        refine ⟨?_, ?_, ?_, ?_, ?_⟩
        · simp only [disposeAsyncGo, hd2, hd1, List.filterMap_cons, asyncSel, if_neg,
            Bool.false_eq_true]
          exact hih.1
        · simp only [disposeAsyncGo, hd2, hd1, Bool.false_eq_true, if_neg]
          exact hih.2.1
        · simp only [disposeAsyncGo, hd2, hd1, Bool.false_eq_true, if_neg]
          exact hih.2.2.1
        · simp only [disposeAsyncGo, hd2, hd1, Bool.false_eq_true, if_neg]
          exact hih.2.2.2.1
        · intro pid hmem
          simp only [disposeAsyncGo, hd2, hd1, Bool.false_eq_true, if_neg] at hmem ⊢
          exact hih.2.2.2.2 pid hmem

theorem all_false_eq_isEmpty {α : Type} (l : List α) (f : α → Bool)
    (h : ∀ x ∈ l, f x = false) : l.all f = l.isEmpty := by
  cases l with
  | nil => rfl
  | cons a tl =>
    have ha := h a (List.mem_cons_self a tl)
    simp [List.all_cons, ha]

theorem any_false_eq_false {α : Type} (l : List α) (f : α → Bool)
    (h : ∀ x ∈ l, f x = false) : l.any f = false := by
  induction l with
  | nil => rfl
  | cons a tl ih =>
    have ha := h a (List.mem_cons_self a tl)
    simp [List.any_cons, ha, ih (fun x hx => h x (List.mem_cons_of_mem a hx))]

theorem prom_flags_of_pending_entry (sys : Sys) (pid : Nat)
    (h : sys.promises.get? pid = some ⟨PromSt.pending, none⟩) :
    promFulfilledB sys pid = false ∧ promRejectedB sys pid = false ∧
      promPendingB sys pid = true := by
  unfold promFulfilledB promRejectedB promPendingB
  rw [h]
  exact ⟨rfl, rfl, rfl⟩

theorem promPendingB_not_fulfilled (sys : Sys) (pid : Nat)
    (h : promPendingB sys pid = true) : promFulfilledB sys pid = false := by
  unfold promPendingB at h
  unfold promFulfilledB
  cases hp : sys.promises.get? pid with
  | none => rw [hp] at h
  | some pr =>
    obtain ⟨ps, ph⟩ := pr
    rw [hp] at h
    cases ps with
    | pending => rfl
    | fulfilled v => exact Bool.noConfusion h
    | rejected e => exact Bool.noConfusion h

theorem promiseAllDone_of_all_fulfilled (sys : Sys) (pids : List Nat)
    (h : ∀ pid ∈ pids, promFulfilledB sys pid = true) :
    promiseAllDone sys pids = true := by
  unfold promiseAllDone
  rw [List.all_eq_true.mpr h]
  simp

theorem promiseAllDone_of_rejected (sys : Sys) (pids : List Nat) (pid : Nat)
    (hmem : pid ∈ pids) (h : promRejectedB sys pid = true) :
    promiseAllDone sys pids = true := by
  unfold promiseAllDone
  rw [List.any_eq_true.mpr ⟨pid, hmem, h⟩]
  simp

theorem promiseAllDone_false_of_pending (sys : Sys) (pids : List Nat) (pid : Nat)
    (hmem : pid ∈ pids) (hpend : promPendingB sys pid = true)
    (hnorej : ∀ q ∈ pids, promRejectedB sys q = false) :
    promiseAllDone sys pids = false := by
  unfold promiseAllDone
  have h1 : pids.all (fun q => promFulfilledB sys q) = false := by
    apply Bool.eq_false_iff.mpr
    intro hall
    have hful := List.all_eq_true.mp hall pid hmem
    rw [promPendingB_not_fulfilled sys pid hpend] at hful
    exact Bool.noConfusion hful
  rw [h1, any_false_eq_false _ _ hnorej]
  rfl

/-- Scenario for the C9 counterexample and witness: a cache holding a
sync-only, an async-only, and a dual-capability value. -/
def c9wsys : Sys :=
  ⟨[⟨[], none,
     [("s", ⟨false, Obj.plain 1 true false⟩),
      ("x", ⟨false, Obj.plain 2 false true⟩),
      ("d", ⟨false, Obj.plain 3 true true⟩)]⟩], [], []⟩

/-- Claim C9, counterexample: asynchronous disposal of `c9wsys` collects
two completion promises (ids 0 and 1); when completion 0 rejects while
completion 1 is still pending, the awaited `Promise.all` completes (with
the rejection) — so "completes only after all collected pending
completions settle" is false of the code at this input. -/
theorem claim_C9_counterexample :
    (Store.asyncDispose c9wsys 0).2.1 = [0, 1] ∧
    promPendingB (settle (Store.asyncDispose c9wsys 0).2.2 0 (Outcome.err 5)) 1 = true ∧
    promiseAllDone (settle (Store.asyncDispose c9wsys 0).2.2 0 (Outcome.err 5)) [0, 1]
      = true := by
  decide

/-- Claim C9 (amended): synchronous disposal walks exactly the currently
cached values (the state — factories, caches, parents — is read-only),
throws `AsyncDisposalRequired` precisely when some cached value exposes
only an asynchronous capability, and otherwise invokes the synchronous
capability on exactly the values exposing one, in cache order.
Asynchronous disposal walks the same cached values, prefers the
asynchronous capability (falling back to the synchronous one), collects
one pending completion promise per asynchronous call, and leaves stores
and factories untouched.  Its final `await Promise.all` is not complete
right after the call unless nothing was collected; it completes once
every collected completion has fulfilled; as long as no collected
completion has rejected it is complete only once none is still pending;
and as soon as any collected completion rejects it completes (with that
rejection), even while other collected completions are still pending. -/
theorem claim_C9_disposal (sys : Sys) (sid : Nat) (st : Store)
    (hst : sys.stores.get? sid = some st) :
    ((Store.dispose sys sid).2 = st.cache.any (fun q => asyncOnlyB q.2)) ∧
    ((Store.dispose sys sid).2 = false →
      (Store.dispose sys sid).1 = st.cache.filterMap syncSel) ∧
    ((Store.asyncDispose sys sid).1 = st.cache.filterMap asyncSel) ∧
    (∀ pid ∈ (Store.asyncDispose sys sid).2.1,
      ((Store.asyncDispose sys sid).2.2).promises.get? pid
        = some ⟨PromSt.pending, none⟩) ∧
    ((Store.asyncDispose sys sid).2.2).stores = sys.stores ∧
    ((Store.asyncDispose sys sid).2.2).facts = sys.facts ∧
    (promiseAllDone (Store.asyncDispose sys sid).2.2 (Store.asyncDispose sys sid).2.1
      = (Store.asyncDispose sys sid).2.1.isEmpty) ∧
    (∀ S : Sys, (∀ pid ∈ (Store.asyncDispose sys sid).2.1, promFulfilledB S pid = true) →
      promiseAllDone S (Store.asyncDispose sys sid).2.1 = true) ∧
    (∀ (S : Sys) (pid : Nat), pid ∈ (Store.asyncDispose sys sid).2.1 →
      promPendingB S pid = true →
      (∀ q ∈ (Store.asyncDispose sys sid).2.1, promRejectedB S q = false) →
      promiseAllDone S (Store.asyncDispose sys sid).2.1 = false) ∧
    (∀ (S : Sys) (pid : Nat), pid ∈ (Store.asyncDispose sys sid).2.1 →
      promRejectedB S pid = true →
      promiseAllDone S (Store.asyncDispose sys sid).2.1 = true) := by
  have hd : Store.dispose sys sid = disposeSyncGo st.cache := by
    unfold Store.dispose
    rw [hst]
  have ha : Store.asyncDispose sys sid = disposeAsyncGo sys st.cache := by
    unfold Store.asyncDispose
    rw [hst]
  have hspec := disposeAsyncGo_spec st.cache sys
  refine ⟨?_, ?_, ?_, ?_, ?_, ?_, ?_, ?_, ?_, ?_⟩
  · rw [hd]
    exact disposeSyncGo_err st.cache
  · rw [hd]
    exact disposeSyncGo_calls st.cache
  · rw [ha]
    exact hspec.1
  · rw [ha]
    exact hspec.2.2.2.2
  · rw [ha]
    exact hspec.2.1
  · rw [ha]
    exact hspec.2.2.1
  · rw [ha]
    unfold promiseAllDone
    rw [all_false_eq_isEmpty _ _ (fun pid hmem =>
        (prom_flags_of_pending_entry _ pid (hspec.2.2.2.2 pid hmem)).1),
      any_false_eq_false _ _ (fun pid hmem =>
        (prom_flags_of_pending_entry _ pid (hspec.2.2.2.2 pid hmem)).2.1)]
    simp
  · intro S hful
    exact promiseAllDone_of_all_fulfilled S _ hful
  · intro S pid hmem hpend hnorej
    exact promiseAllDone_false_of_pending S _ pid hmem hpend hnorej
  · intro S pid hmem hrej
    exact promiseAllDone_of_rejected S _ pid hmem hrej

/-- Witness for the amended claim C9 at a concrete input: synchronous
disposal invokes the sync capability on the sync-only value then fails on
the async-only value; asynchronous disposal invokes sync on the sync-only
value and async on the async-only and dual-capability values; its await
is not complete while the two collected completions are pending, is
complete once both have fulfilled, and is complete as soon as one has
rejected while the other is still pending. -/
theorem claim_C9_disposal_witness :
    c9wsys.stores.get? 0 = some ⟨[], none,
      [("s", ⟨false, Obj.plain 1 true false⟩),
       ("x", ⟨false, Obj.plain 2 false true⟩),
       ("d", ⟨false, Obj.plain 3 true true⟩)]⟩ ∧
    Store.dispose c9wsys 0 = ([DispCall.syncCall (Obj.plain 1 true false)], true) ∧
    (Store.asyncDispose c9wsys 0).1
      = [DispCall.syncCall (Obj.plain 1 true false),
         DispCall.asyncCall (Obj.plain 2 false true),
         DispCall.asyncCall (Obj.plain 3 true true)] ∧
    (Store.asyncDispose c9wsys 0).2.1 = [0, 1] ∧
    promiseAllDone (Store.asyncDispose c9wsys 0).2.2 (Store.asyncDispose c9wsys 0).2.1
      = false ∧
    promiseAllDone
      (settle (settle (Store.asyncDispose c9wsys 0).2.2 0
        (Outcome.ok (Obj.plain 8 false false))) 1 (Outcome.ok (Obj.plain 8 false false)))
      (Store.asyncDispose c9wsys 0).2.1 = true ∧
    promiseAllDone (settle (Store.asyncDispose c9wsys 0).2.2 1 (Outcome.err 6))
      (Store.asyncDispose c9wsys 0).2.1 = true := by
  have h := claim_C9_disposal c9wsys 0 ⟨[], none,
    [("s", ⟨false, Obj.plain 1 true false⟩),
     ("x", ⟨false, Obj.plain 2 false true⟩),
     ("d", ⟨false, Obj.plain 3 true true⟩)]⟩ rfl
  refine ⟨rfl, ?_, ?_, by decide, ?_, ?_, ?_⟩
  · have h1 := h.1
    exact Prod.ext (by decide) (by decide)
  · rw [h.2.2.1]
    decide
  · exact h.2.2.2.2.2.2.2.2.1
      (Store.asyncDispose c9wsys 0).2.2 0 (by decide) (by decide) (by decide)
  · exact h.2.2.2.2.2.2.2.1
      (settle (settle (Store.asyncDispose c9wsys 0).2.2 0
        (Outcome.ok (Obj.plain 8 false false))) 1 (Outcome.ok (Obj.plain 8 false false)))
      (by decide)
  · exact h.2.2.2.2.2.2.2.2.2
      (settle (Store.asyncDispose c9wsys 0).2.2 1 (Outcome.err 6)) 1 (by decide) (by decide)

/-- Claim C10: `addTransient` mutates the factory function object itself —
the new state is exactly `setTransient` of the old, independent of the
receiving definition, of the key, and of the returned definition (which
may be discarded, or even be a `DuplicateKey` error).  Consequently any
other definition in which the same function object was registered via
plain `add` now resolves that registration transiently: each `get`
invokes the factory again and no cache is ever written. -/
theorem claim_C10_addTransient_mutation (fuel m sid fid n : Nat) (k k2 : String)
    (d2 : StoreDefinition) (sys : Sys) (st : Store) (f : Factory)
    (beh : Nat → FRes) (vf : Nat → Obj)
    (hfa : sys.facts.get? fid = some f)
    (hft : f.transient = false)
    (hfb : f.beh = beh)
    (hbv : ∀ j, beh j = FRes.val (vf j))
    (hst : sys.stores.get? sid = some st)
    (hc : alookup st.cache k = none)
    (hf : alookup st.factories k = some fid) :
    (StoreDefinition.addTransient fuel sys d2 k2 fid).2 = setTransient sys fid ∧
    factTransient (StoreDefinition.addTransient fuel sys d2 k2 fid).2 fid = some true ∧
    factBeh (StoreDefinition.addTransient fuel sys d2 k2 fid).2 fid = some beh ∧
    countOf (StoreDefinition.addTransient fuel sys d2 k2 fid).2 fid = f.count ∧
    ((StoreDefinition.addTransient fuel sys d2 k2 fid).2).stores = sys.stores ∧
    getResults (m + 1) sid k n (StoreDefinition.addTransient fuel sys d2 k2 fid).2
      = (List.range n).map (fun j => GetRes.ok (vf (f.count + j))) ∧
    (runEvs (m + 1) sid (StoreDefinition.addTransient fuel sys d2 k2 fid).2
        (List.replicate n (Ev.get k))).stores = sys.stores ∧
    countOf (runEvs (m + 1) sid (StoreDefinition.addTransient fuel sys d2 k2 fid).2
        (List.replicate n (Ev.get k))) fid = f.count + n := by
  have hS : setTransient sys fid
      = { sys with facts := sys.facts.set fid { f with transient := true } } := by
    unfold setTransient
    rw [hfa]
  have hfa' : (setTransient sys fid).facts.get? fid = some { f with transient := true } := by
    rw [hS]
    exact facts_set_get_self sys.facts fid f _ hfa
  have hstS : (setTransient sys fid).stores.get? sid = some st := by
    rw [hS]
    exact hst
  have hrun := transient_run m sid fid k beh vf hbv n (setTransient sys fid) st
    { f with transient := true } hstS hc hf hfa' rfl hfb
  refine ⟨rfl, ?_, ?_, ?_, ?_, ?_, ?_, ?_⟩
  · show factTransient (setTransient sys fid) fid = some true
    unfold factTransient
    rw [hfa']
    rfl
  · show factBeh (setTransient sys fid) fid = some beh
    unfold factBeh
    rw [hfa']
    show some f.beh = some beh
    rw [hfb]
  · show countOf (setTransient sys fid) fid = f.count
    exact countOf_eq _ fid { f with transient := true } hfa'
  · show (setTransient sys fid).stores = sys.stores
    rw [hS]
  · exact hrun.1
  · refine hrun.2.1.trans ?_
    rw [hS]
  · exact hrun.2.2

/-- Scenario for the C10 witness: factory 0 registered via plain `add` at
key `a` of an already-finalized store, then passed to `addTransient` on an
unrelated definition. -/
def c10wsys : Sys :=
  ⟨[⟨[("a", 0)], none, []⟩],
   [⟨false, fun j => FRes.val (Obj.plain j false false), 0⟩], []⟩

/-- Witness for claim C10 at a concrete input. -/
theorem claim_C10_addTransient_mutation_witness :
    (c10wsys.facts.get? 0 = some ⟨false, fun j => FRes.val (Obj.plain j false false), 0⟩ ∧
      c10wsys.stores.get? 0 = some ⟨[("a", 0)], none, []⟩) ∧
    factTransient (StoreDefinition.addTransient 1 c10wsys defineStore "t" 0).2 0 = some true ∧
    getResults 1 0 "a" 2 (StoreDefinition.addTransient 1 c10wsys defineStore "t" 0).2
      = [GetRes.ok (Obj.plain 0 false false), GetRes.ok (Obj.plain 1 false false)] ∧
    (runEvs 1 0 (StoreDefinition.addTransient 1 c10wsys defineStore "t" 0).2
        (List.replicate 2 (Ev.get "a"))).stores = c10wsys.stores ∧
    countOf (runEvs 1 0 (StoreDefinition.addTransient 1 c10wsys defineStore "t" 0).2
        (List.replicate 2 (Ev.get "a"))) 0 = 2 := by
  have h := claim_C10_addTransient_mutation 1 0 0 0 2 "a" "t" defineStore c10wsys
    ⟨[("a", 0)], none, []⟩ ⟨false, fun j => FRes.val (Obj.plain j false false), 0⟩
    (fun j => FRes.val (Obj.plain j false false)) (fun j => Obj.plain j false false)
    rfl rfl rfl (fun j => rfl) rfl rfl rfl
  refine ⟨⟨rfl, rfl⟩, h.2.1, ?_, h.2.2.2.2.2.2.1, h.2.2.2.2.2.2.2⟩
  rw [h.2.2.2.2.2.1]
  decide
